import Mathlib

/-!
# pi-bme280: register protocol and calibration decoding

A shallow embedding of `i2c_bme280.c` / `getbme280.h`.

Conventions of the embedding
* The package targets the Raspberry Pi family (ARM Linux, gcc), where plain
  `char` is an unsigned 8-bit type.  A `char` is a `Nat` below 256; every store
  into a `char` object reduces modulo 256.
* `int`, `int16_t`, `int8_t` values are `Int`; a store into `int16_t` / `int8_t`
  wraps into the two's-complement range (gcc's conversion).
* The global file descriptor `i2cfd` becomes an explicit `Bus` value that is
  passed through every operation.  `printf` output is not modelled.
-/

namespace BME280

/-! ## Register addresses (getbme280.h) -/

def BME280_PRES_DATA_MSB_ADDR : Nat := 0xF7
def BME280_CONFIG_ADDR : Nat := 0xF5
def BME280_CTRL_MEAS_ADDR : Nat := 0xF4
def BME280_CTRL_HUM_ADDR : Nat := 0xF2
def BME280_RESET_ADDR : Nat := 0xE0
def BME280_CHIP_ID_ADDR : Nat := 0xD0
def BME280_CALIB_00_ADDR : Nat := 0x88
def BME280_CALIB_25_ADDR : Nat := 0xA1
def BME280_CALIB_26_ADDR : Nat := 0xE1

/-! ## The I2C device behind `i2cfd` -/

/-- One transaction on the bus handle, with the number of bytes it moved. -/
inductive Xfer where
  | wr (bytes : List Nat) (done : Nat)
  | rd (count : Nat) (done : Nat)
deriving DecidableEq, Repr

/-- The sensor as seen through `i2cfd`: a register file of 8-bit cells, the
register pointer set by the first byte of a write, a script giving how many
bytes each of the coming transfers will move (an exhausted script means every
transfer is complete), and the record of the transactions so far, newest
first. -/
structure Bus where
  regs : Nat → Nat
  ptr : Nat
  script : List Nat
  log : List Xfer

/-- Number of bytes the next transfer moves when `n` are requested. -/
def Bus.grant (b : Bus) (n : Nat) : Nat :=
  match b.script with
  | [] => n
  | k :: _ => min k n

/-- Result of `write(i2cfd, bytes, len)`. -/
structure WrRes where
  ret : Nat
  bus : Bus

/-- Result of `read(i2cfd, buf, len)`: return value, the caller's buffer, bus. -/
structure RdRes where
  ret : Nat
  buf : Nat → Nat
  bus : Bus

/-- The call `write(i2cfd, bytes, len)`.  The first byte that gets through
selects the register pointer; a second byte is stored in that register. -/
def i2c_write (bytes : List Nat) (b : Bus) : WrRes :=
  let k := b.grant bytes.length
  let ptr := if 1 ≤ k then bytes.headD b.ptr else b.ptr
  let regs := if 2 ≤ k then (fun a => if a = ptr then bytes.getD 1 0 % 256 else b.regs a)
              else b.regs
  { ret := k
    bus := { regs := regs, ptr := ptr, script := b.script.tail,
             log := Xfer.wr bytes k :: b.log } }

/-- The call `read(i2cfd, buf, n)`.  The bytes that get through are the
registers from the pointer on; the rest of the caller's buffer keeps its
content. -/
def i2c_read (buf : Nat → Nat) (n : Nat) (b : Bus) : RdRes :=
  let k := b.grant n
  { ret := k
    buf := fun i => if i < k then b.regs (b.ptr + i) % 256 else buf i
    bus := { regs := b.regs, ptr := b.ptr + k, script := b.script.tail,
             log := Xfer.rd n k :: b.log } }

/-- Number of transactions in a record that stored a byte in a register. -/
def regWrites : List Xfer → Nat
  | [] => 0
  | Xfer.wr _ done :: rest => (if 2 ≤ done then 1 else 0) + regWrites rest
  | Xfer.rd _ _ :: rest => regWrites rest

/-! ## Bit manipulation on a `char` -/

/-- The statement `regdata |= 1 << k;` on a `char`. -/
def bit_set (regdata k : Nat) : Nat := (regdata ||| (1 <<< k)) % 256

/-- The statement `regdata &= ~(1 << k);` on a `char`: the complement of
`1 << k`, restricted to the eight bits a `char` keeps. -/
def bit_clr (regdata k : Nat) : Nat := (regdata &&& (0xFF ^^^ (1 <<< k))) % 256

/-! ## Getters -/

/-- Source `get_h_osrs`: humidity oversampling, bits 2..0 of 0xF2. -/
def get_h_osrs (bus : Bus) : Nat × Bus :=
  let reg := BME280_CTRL_HUM_ADDR
  let w := i2c_write [reg] bus
  let r := i2c_read (fun _ => 0) 1 w.bus
  (r.buf 0 &&& 0x07, r.bus)

/-- Source `get_p_osrs`: pressure oversampling, bits 4..2 of 0xF4. -/
def get_p_osrs (bus : Bus) : Nat × Bus :=
  let reg := BME280_CTRL_MEAS_ADDR
  let w := i2c_write [reg] bus
  let r := i2c_read (fun _ => 0) 1 w.bus
  ((r.buf 0 >>> 2) &&& 0x07, r.bus)

/-- Source `get_t_osrs`: temperature oversampling, bits 7..5 of 0xF4. -/
def get_t_osrs (bus : Bus) : Nat × Bus :=
  let reg := BME280_CTRL_MEAS_ADDR
  let w := i2c_write [reg] bus
  let r := i2c_read (fun _ => 0) 1 w.bus
  ((r.buf 0 >>> 5) &&& 0x07, r.bus)

/-- Source `get_filter`: IIR filter, bits 4..2 of 0xF5. -/
def get_filter (bus : Bus) : Nat × Bus :=
  let reg := BME280_CONFIG_ADDR
  let w := i2c_write [reg] bus
  let r := i2c_read (fun _ => 0) 1 w.bus
  ((r.buf 0 >>> 2) &&& 0x07, r.bus)

/-- Source `get_stby`: standby time, bits 7..5 of 0xF5. -/
def get_stby (bus : Bus) : Nat × Bus :=
  let reg := BME280_CONFIG_ADDR
  let w := i2c_write [reg] bus
  let r := i2c_read (fun _ => 0) 1 w.bus
  ((r.buf 0 >>> 5) &&& 0x07, r.bus)

/-! ## Setters -/

/-- The `strcmp` chain of `set_h_osrs`: the value assigned to `regdata`, or
`none` on the final `else`. -/
def h_osrs_code (mode : String) : Option Nat :=
  if mode = "skip" then some 0
  else if mode = "1" then some 1
  else if mode = "2" then some 2
  else if mode = "4" then some 3
  else if mode = "8" then some 4
  else if mode = "16" then some 5
  else none

/-- The tail shared by the setters: `buf[0] = reg; buf[1] = regdata;` then
`write(i2cfd, buf, 2)`, returning -1 on a short write and 0 otherwise. -/
def write_reg (reg regdata : Nat) (bus : Bus) : Int × Bus :=
  let w := i2c_write [reg, regdata] bus
  if w.ret ≠ 2 then (-1, w.bus) else (0, w.bus)

/-- Source `set_h_osrs`. -/
def set_h_osrs (mode : String) (bus : Bus) : Int × Bus :=
  match h_osrs_code mode with
  | none => (-1, bus)
  | some regdata => write_reg BME280_CTRL_HUM_ADDR regdata bus

/-- The `strcmp` chain of `set_t_osrs` applied to the byte in `regdata`. -/
def t_osrs_bits (mode : String) (regdata : Nat) : Option Nat :=
  if mode = "skip" then some (bit_clr (bit_clr (bit_clr regdata 5) 6) 7)
  else if mode = "1" then some (bit_clr (bit_clr (bit_set regdata 5) 6) 7)
  else if mode = "2" then some (bit_clr (bit_set (bit_clr regdata 5) 6) 7)
  else if mode = "4" then some (bit_clr (bit_set (bit_set regdata 5) 6) 7)
  else if mode = "8" then some (bit_set (bit_clr (bit_clr regdata 5) 6) 7)
  else if mode = "16" then some (bit_set (bit_set (bit_clr regdata 5) 6) 7)
  else none

/-- The `strcmp` chain of `set_p_osrs` applied to the byte in `regdata`. -/
def p_osrs_bits (mode : String) (regdata : Nat) : Option Nat :=
  if mode = "skip" then some (bit_clr (bit_clr (bit_clr regdata 2) 3) 4)
  else if mode = "1" then some (bit_clr (bit_clr (bit_set regdata 2) 3) 4)
  else if mode = "2" then some (bit_clr (bit_set (bit_clr regdata 2) 3) 4)
  else if mode = "4" then some (bit_clr (bit_set (bit_set regdata 2) 3) 4)
  else if mode = "8" then some (bit_set (bit_clr (bit_clr regdata 2) 3) 4)
  else if mode = "16" then some (bit_set (bit_set (bit_clr regdata 2) 3) 4)
  else none

/-- The `strcmp` chain of `set_filter` applied to the byte in `regdata`. -/
def filter_bits (mode : String) (regdata : Nat) : Option Nat :=
  if mode = "off" then some (bit_clr (bit_clr (bit_clr regdata 2) 3) 4)
  else if mode = "2" then some (bit_clr (bit_clr (bit_set regdata 2) 3) 4)
  else if mode = "4" then some (bit_clr (bit_set (bit_clr regdata 2) 3) 4)
  else if mode = "8" then some (bit_clr (bit_set (bit_set regdata 2) 3) 4)
  else if mode = "16" then some (bit_set (bit_clr (bit_clr regdata 2) 3) 4)
  else none

/-- The `strcmp` chain of `set_stby` applied to the byte in `regdata`. -/
def stby_bits (mode : String) (regdata : Nat) : Option Nat :=
  if mode = "0.5" then some (bit_clr (bit_clr (bit_clr regdata 5) 6) 7)
  else if mode = "62.5" then some (bit_clr (bit_clr (bit_set regdata 5) 6) 7)
  else if mode = "125" then some (bit_clr (bit_set (bit_clr regdata 5) 6) 7)
  else if mode = "250" then some (bit_clr (bit_set (bit_set regdata 5) 6) 7)
  else if mode = "500" then some (bit_set (bit_clr (bit_clr regdata 5) 6) 7)
  else if mode = "1000" then some (bit_set (bit_clr (bit_set regdata 5) 6) 7)
  else if mode = "10" then some (bit_set (bit_set (bit_clr regdata 5) 6) 7)
  else if mode = "20" then some (bit_set (bit_set (bit_set regdata 5) 6) 7)
  else none

/-- The frame shared by `set_t_osrs`, `set_p_osrs`, `set_filter`, `set_stby`:
select `reg`, read one byte into `regdata` (initially 0; a short transfer only
prints a message), run the `strcmp` chain, return -1 on its final `else`,
otherwise write the byte back. -/
def set_field (reg : Nat) (chain : String → Nat → Option Nat)
    (mode : String) (bus : Bus) : Int × Bus :=
  let w := i2c_write [reg] bus
  let r := i2c_read (fun _ => 0) 1 w.bus
  let regdata := r.buf 0
  match chain mode regdata with
  | none => (-1, r.bus)
  | some regdata => write_reg reg regdata r.bus

/-- Source `set_t_osrs`. -/
def set_t_osrs (mode : String) (bus : Bus) : Int × Bus :=
  set_field BME280_CTRL_MEAS_ADDR t_osrs_bits mode bus

/-- Source `set_p_osrs`. -/
def set_p_osrs (mode : String) (bus : Bus) : Int × Bus :=
  set_field BME280_CTRL_MEAS_ADDR p_osrs_bits mode bus

/-- Source `set_filter`. -/
def set_filter (mode : String) (bus : Bus) : Int × Bus :=
  set_field BME280_CONFIG_ADDR filter_bits mode bus

/-- Source `set_stby`. -/
def set_stby (mode : String) (bus : Bus) : Int × Bus :=
  set_field BME280_CONFIG_ADDR stby_bits mode bus

/-- The five setters that take a symbolic name. -/
inductive Setter where
  | h_osrs | t_osrs | p_osrs | filter | stby
deriving DecidableEq, Repr

/-- The source function behind each setter. -/
def Setter.run : Setter → String → Bus → Int × Bus
  | .h_osrs => set_h_osrs
  | .t_osrs => set_t_osrs
  | .p_osrs => set_p_osrs
  | .filter => set_filter
  | .stby => set_stby

/-- The names each setter compares its argument with. -/
def Setter.names : Setter → List String
  | .h_osrs => ["skip", "1", "2", "4", "8", "16"]
  | .t_osrs => ["skip", "1", "2", "4", "8", "16"]
  | .p_osrs => ["skip", "1", "2", "4", "8", "16"]
  | .filter => ["off", "2", "4", "8", "16"]
  | .stby => ["0.5", "62.5", "125", "250", "500", "1000", "10", "20"]

/-! ## Calibration data -/

/-- Store into a `uint16_t` object. -/
def to_uint16 (x : Int) : Int := x % 65536

/-- Store into an `int16_t` object. -/
def to_int16 (x : Int) : Int := (x + 32768) % 65536 - 32768

/-- Store into a `uint8_t` object. -/
def to_uint8 (x : Int) : Int := x % 256

/-- Store into an `int8_t` object. -/
def to_int8 (x : Int) : Int := (x + 128) % 256 - 128

/-- Source `struct bmecal`.  Field types: `dig_T1`, `dig_P1` are `uint16_t`,
`dig_H1`, `dig_H3` are `uint8_t`, `dig_H6` is `int8_t`, the rest `int16_t`. -/
structure bmecal where
  dig_T1 : Int
  dig_T2 : Int
  dig_T3 : Int
  dig_P1 : Int
  dig_P2 : Int
  dig_P3 : Int
  dig_P4 : Int
  dig_P5 : Int
  dig_P6 : Int
  dig_P7 : Int
  dig_P8 : Int
  dig_P9 : Int
  dig_H1 : Int
  dig_H2 : Int
  dig_H3 : Int
  dig_H4 : Int
  dig_H5 : Int
  dig_H6 : Int

/-- The statement pair `d = v; if(d > 32767) d -= 65536;` on an `int16_t`
field `d`, where `v` is the `int` value of the right-hand side. -/
def store_s16 (v : Int) : Int :=
  let d := to_int16 v
  if d > 32767 then to_int16 (d - 65536) else d

/-- The statement pair `d = v; if(d > 127) d -= 256;` on an `int8_t` field. -/
def store_s8 (v : Int) : Int :=
  let d := to_int8 v
  if d > 127 then to_int8 (d - 256) else d

/-- Source `get_calib`.  A short transfer only prints a message, so the
function always fills the struct. -/
def get_calib (bus : Bus) : bmecal × Bus :=
  let w1 := i2c_write [BME280_CALIB_00_ADDR] bus
  let r1 := i2c_read (fun _ => 0) 24 w1.bus
  let buf := r1.buf
  let dig_T1 := to_uint16 ((buf 0 + buf 1 * 256 : Nat) : Int)
  let dig_T2 := store_s16 ((buf 2 + buf 3 * 256 : Nat) : Int)
  let dig_T3 := store_s16 ((buf 4 + buf 5 * 256 : Nat) : Int)
  let dig_P1 := to_uint16 ((buf 6 + buf 7 * 256 : Nat) : Int)
  let dig_P2 := store_s16 ((buf 8 + buf 9 * 256 : Nat) : Int)
  let dig_P3 := store_s16 ((buf 10 + buf 11 * 256 : Nat) : Int)
  let dig_P4 := store_s16 ((buf 12 + buf 13 * 256 : Nat) : Int)
  let dig_P5 := store_s16 ((buf 14 + buf 15 * 256 : Nat) : Int)
  let dig_P6 := store_s16 ((buf 16 + buf 17 * 256 : Nat) : Int)
  let dig_P7 := store_s16 ((buf 18 + buf 19 * 256 : Nat) : Int)
  let dig_P8 := store_s16 ((buf 20 + buf 21 * 256 : Nat) : Int)
  let dig_P9 := store_s16 ((buf 22 + buf 23 * 256 : Nat) : Int)
  let w2 := i2c_write [BME280_CALIB_25_ADDR] r1.bus
  let r2 := i2c_read (fun _ => 0) 1 w2.bus
  let dig_H1 := to_uint8 ((r2.buf 0 : Nat) : Int)
  let w3 := i2c_write [BME280_CALIB_26_ADDR] r2.bus
  let r3 := i2c_read (fun _ => 0) 7 w3.bus
  let buf := r3.buf
  let dig_H2 := store_s16 ((buf 0 + buf 1 * 256 : Nat) : Int)
  let dig_H3 := to_uint8 ((buf 2 &&& 0xFF : Nat) : Int)
  let dig_H4 := store_s16 ((buf 3 * 16 + (buf 4 &&& 0xF) : Nat) : Int)
  let dig_H5 := store_s16 ((buf 4 / 16 + buf 5 * 16 : Nat) : Int)
  let dig_H6 := store_s8 ((buf 6 : Nat) : Int)
  ({ dig_T1 := dig_T1, dig_T2 := dig_T2, dig_T3 := dig_T3, dig_P1 := dig_P1,
     dig_P2 := dig_P2, dig_P3 := dig_P3, dig_P4 := dig_P4, dig_P5 := dig_P5,
     dig_P6 := dig_P6, dig_P7 := dig_P7, dig_P8 := dig_P8, dig_P9 := dig_P9,
     dig_H1 := dig_H1, dig_H2 := dig_H2, dig_H3 := dig_H3, dig_H4 := dig_H4,
     dig_H5 := dig_H5, dig_H6 := dig_H6 }, r3.bus)

/-- The signed 16-bit coefficients decoded from a little-endian byte pair,
each with the register address of its low byte (`struct bmecal` comments;
the high byte is at the next address). -/
def signed_pair_coeffs : List ((bmecal → Int) × Nat) :=
  [(bmecal.dig_T2, 0x8A), (bmecal.dig_T3, 0x8C), (bmecal.dig_P2, 0x90),
   (bmecal.dig_P3, 0x92), (bmecal.dig_P4, 0x94), (bmecal.dig_P5, 0x96),
   (bmecal.dig_P6, 0x98), (bmecal.dig_P7, 0x9A), (bmecal.dig_P8, 0x9C),
   (bmecal.dig_P9, 0x9E), (bmecal.dig_H2, 0xE1)]

/-- A sensor whose registers all hold `r`, with every transfer complete. -/
def busOf (r : Nat) : Bus := { regs := fun _ => r, ptr := 0, script := [], log := [] }

/-- A sensor whose register at address `a` holds the low byte of `a`. -/
def addrBus : Bus := { regs := fun a => a % 256, ptr := 0, script := [], log := [] }

/-! ## Power mode and the remaining getters -/

/-- Source `get_spi3we`: SPI 3-wire flag, bit 0 of 0xF5. -/
def get_spi3we (bus : Bus) : Nat × Bus :=
  let reg := BME280_CONFIG_ADDR
  let w := i2c_write [reg] bus
  let r := i2c_read (fun _ => 0) 1 w.bus
  (r.buf 0 &&& 0x01, r.bus)

/-- Source `power_t` (getbme280.h). -/
inductive power_t where
  | psleep | forced | force2 | normal
deriving DecidableEq, Repr

/-- The enumerator values of `power_t`. -/
def power_t.val : power_t → Nat
  | .psleep => 0x00
  | .forced => 0x01
  | .force2 => 0x02
  | .normal => 0x03

/-- Source `get_power`: power mode, bits 1..0 of 0xF4.  Unlike the other
getters it returns on a short transfer; its `return(-1)` in a function
returning `char` is the byte 255. -/
def get_power (bus : Bus) : Nat × Bus :=
  let reg := BME280_CTRL_MEAS_ADDR
  let w := i2c_write [reg] bus
  if w.ret ≠ 1 then (255, w.bus)
  else
    let r := i2c_read (fun _ => 0) 1 w.bus
    if r.ret ≠ 1 then (255, r.bus)
    else (r.buf 0 &&& 0x03, r.bus)

/-- The `switch(mode)` of `set_power` applied to the byte in `regdata`. -/
def power_bits (mode : power_t) (regdata : Nat) : Nat :=
  match mode with
  | .psleep => bit_clr (bit_clr regdata 0) 1
  | .forced => bit_clr (bit_set regdata 0) 1
  | .force2 => regdata
  | .normal => bit_set (bit_set regdata 0) 1

/-- Source `set_power`. -/
def set_power (mode : power_t) (bus : Bus) : Int × Bus :=
  let reg := BME280_CTRL_MEAS_ADDR
  let w := i2c_write [reg] bus
  if w.ret ≠ 1 then (-1, w.bus)
  else
    let r := i2c_read (fun _ => 0) 1 w.bus
    if r.ret ≠ 1 then (-1, r.bus)
    else
      let regdata := r.buf 0
      if regdata &&& 0x03 = mode.val then (0, r.bus)
      else
        let regdata := power_bits mode regdata
        let w2 := i2c_write [BME280_CTRL_MEAS_ADDR, regdata] r.bus
        if w2.ret ≠ 2 then (-1, w2.bus)
        else
          let g := get_power w2.bus
          if g.1 = mode.val then (0, g.2) else (-1, g.2)

/-- The seven getters of a configuration field. -/
inductive Getter where
  | h_osrs | p_osrs | t_osrs | power | filter | stby | spi3we
deriving DecidableEq, Repr

/-- The source function behind each getter. -/
def Getter.run : Getter → Bus → Nat × Bus
  | .h_osrs => get_h_osrs
  | .p_osrs => get_p_osrs
  | .t_osrs => get_t_osrs
  | .power => get_power
  | .filter => get_filter
  | .stby => get_stby
  | .spi3we => get_spi3we

/-- The register each getter reads, in the specification's words: humidity
oversampling in 0xF2; pressure and temperature oversampling and power mode in
0xF4; filter, standby and SPI 3-wire flag in 0xF5. -/
def Getter.reg : Getter → Nat
  | .h_osrs => 0xF2
  | .p_osrs => 0xF4
  | .t_osrs => 0xF4
  | .power => 0xF4
  | .filter => 0xF5
  | .stby => 0xF5
  | .spi3we => 0xF5

/-- Position of the lowest bit of the field each getter owns, in the
specification's words. -/
def Getter.shift : Getter → Nat
  | .h_osrs => 0
  | .p_osrs => 2
  | .t_osrs => 5
  | .power => 0
  | .filter => 2
  | .stby => 5
  | .spi3we => 0

/-- Width in bits of the field each getter owns, in the specification's
words. -/
def Getter.width : Getter → Nat
  | .h_osrs => 3
  | .p_osrs => 3
  | .t_osrs => 3
  | .power => 2
  | .filter => 3
  | .stby => 3
  | .spi3we => 1

/-- The mask that goes with the width: 7, 3 or 1. -/
def Getter.mask (g : Getter) : Nat := 2 ^ g.width - 1

/-! ## Measurement data

The compensation formulas of `get_data` are written in `float` with `double`
literals.  They are embedded in exact arithmetic over `ℚ`: every conversion
of an integer to `float` and every `+ - * /` is exact, so rounding is not
modelled.  A division by zero has no value (`none`). -/

/-- Source `struct bmedata`.  `pres_p` has no value when the pressure stage
divides by zero. -/
structure bmedata where
  temp_c : ℚ
  temp_f : ℚ
  humi_p : ℚ
  pres_p : Option ℚ

/-- The conversion `(long)x` of a floating value: the fractional part is
discarded. -/
def c_long (x : ℚ) : Int := Int.tdiv x.num x.den

/-- The three raw readings `adc_p`, `adc_t`, `adc_h` of `get_data`. -/
structure rawadc where
  adc_p : Int
  adc_t : Int
  adc_h : Int

/-- Source `get_data`, first part: the burst read of 8 bytes from 0xF7 and the
assembly of `adc_p`, `adc_t`, `adc_h`.  A short transfer only prints a
message. -/
def get_data_adc (bus : Bus) : rawadc × Bus :=
  let reg := BME280_PRES_DATA_MSB_ADDR
  let w := i2c_write [reg] bus
  let r := i2c_read (fun _ => 0) 8 w.bus
  let buf := r.buf
  let adc_p : Int := (((buf 0 * 65536 + (buf 1 * 256 + (buf 2 &&& 0xF0))) / 16 : Nat) : Int)
  let adc_t : Int := (((buf 3 * 65536 + (buf 4 * 256 + (buf 5 &&& 0xF0))) / 16 : Nat) : Int)
  let adc_h : Int := ((buf 6 * 256 + buf 7 : Nat) : Int)
  ({ adc_p := adc_p, adc_t := adc_t, adc_h := adc_h }, r.bus)

/-- The local `var1` of the temperature stage of `get_data`. -/
def temp_var1 (adc_t : Int) (bmec : bmecal) : ℚ :=
  ((adc_t : ℚ) / 16384 - (bmec.dig_T1 : ℚ) / 1024) * (bmec.dig_T2 : ℚ)

/-- The local `var2` of the temperature stage of `get_data`. -/
def temp_var2 (adc_t : Int) (bmec : bmecal) : ℚ :=
  (((adc_t : ℚ) / 131072 - (bmec.dig_T1 : ℚ) / 8192) *
    ((adc_t : ℚ) / 131072 - (bmec.dig_T1 : ℚ) / 8192)) * (bmec.dig_T3 : ℚ)

/-- The local `t_fine` of `get_data`, `(long)(var1 + var2)`, in exact
arithmetic. -/
def t_fine (adc_t : Int) (bmec : bmecal) : Int :=
  c_long (temp_var1 adc_t bmec + temp_var2 adc_t bmec)

/-- The local `var1` of the pressure stage just before the division, in exact
arithmetic: the divisor `(1.0 + var1 / 32768.0) * dig_P1`. -/
def press_divisor (tfine : Int) (bmec : bmecal) : ℚ :=
  let var1 : ℚ := (tfine : ℚ) / 2 - 64000
  let var1 : ℚ := ((bmec.dig_P3 : ℚ) * var1 * var1 / 524288 + (bmec.dig_P2 : ℚ) * var1) / 524288
  (1 + var1 / 32768) * (bmec.dig_P1 : ℚ)

/-- The pressure stage of `get_data`, in exact arithmetic. -/
def comp_pressure (adc_p tfine : Int) (bmec : bmecal) : Option ℚ :=
  let var1 : ℚ := (tfine : ℚ) / 2 - 64000
  let var2 : ℚ := var1 * var1 * (bmec.dig_P6 : ℚ) / 32768
  let var2 : ℚ := var2 + var1 * (bmec.dig_P5 : ℚ) * 2
  let var2 : ℚ := (var2 / 4) + ((bmec.dig_P4 : ℚ) * 65536)
  let var1 : ℚ := press_divisor tfine bmec
  let p : ℚ := 1048576 - (adc_p : ℚ)
  if var1 = 0 then none
  else
    let p : ℚ := (p - (var2 / 4096)) * 6250 / var1
    let var1 : ℚ := (bmec.dig_P9 : ℚ) * p * p / 2147483648
    let var2 : ℚ := p * (bmec.dig_P8 : ℚ) / 32768
    some (p + (var1 + var2 + (bmec.dig_P7 : ℚ)) / 16)

/-- The humidity stage of `get_data` up to the assignment of `humi_p`, before
the two clamping tests. -/
def humidity_expr (adc_h tfine : Int) (bmec : bmecal) : ℚ :=
  let var_H : ℚ := (tfine : ℚ) - 76800
  let var_H : ℚ :=
    ((adc_h : ℚ) - ((bmec.dig_H4 : ℚ) * 64 + (bmec.dig_H5 : ℚ) / 16384 * var_H)) *
    ((bmec.dig_H2 : ℚ) / 65536 * (1 + (bmec.dig_H6 : ℚ) / 67108864 * var_H *
      (1 + (bmec.dig_H3 : ℚ) / 67108864 * var_H)))
  var_H * (1 - (bmec.dig_H1 : ℚ) * var_H / 524288)

/-- Source `get_data`, in exact arithmetic. -/
def get_data (bmec : bmecal) (bus : Bus) : bmedata × Bus :=
  let a := get_data_adc bus
  let adc := a.1
  let var1 := temp_var1 adc.adc_t bmec
  let var2 := temp_var2 adc.adc_t bmec
  let tfine := t_fine adc.adc_t bmec
  let temp_c : ℚ := (var1 + var2) / 5120
  let temp_f : ℚ := temp_c * 1.8 + 32
  let pres_p := comp_pressure adc.adc_p tfine bmec
  let humi_p := humidity_expr adc.adc_h tfine bmec
  let humi_p : ℚ := if humi_p > 100 then 100 else if humi_p < 0 then 0 else humi_p
  ({ temp_c := temp_c, temp_f := temp_f, humi_p := humi_p, pres_p := pres_p }, a.2)

/-- A coefficient set that is zero except for the given temperature and
humidity coefficients. -/
def calOf (t1 t2 t3 h1 h2 h4 : Int) : bmecal :=
  { dig_T1 := t1, dig_T2 := t2, dig_T3 := t3, dig_P1 := 0, dig_P2 := 0, dig_P3 := 0,
    dig_P4 := 0, dig_P5 := 0, dig_P6 := 0, dig_P7 := 0, dig_P8 := 0, dig_P9 := 0,
    dig_H1 := h1, dig_H2 := h2, dig_H3 := 0, dig_H4 := h4, dig_H5 := 0, dig_H6 := 0 }

/-- The sensor `addrBus` with the low four bits of the bytes at 0xF9 and 0xFC
cleared. -/
def nibbleBus : Bus :=
  { regs := fun a => if a = 0xF9 then 0xF0 else if a = 0xFC then 0xF0 else a % 256,
    ptr := 0, script := [], log := [] }

/-- A sensor whose temperature data bytes 0xFA..0xFC hold 0x80, 0x00, 0x00 and
whose other registers hold `r`. -/
def tempBus (r : Nat) : Bus :=
  { regs := fun a => if a = 0xFA then 0x80 else if a = 0xFB then 0 else if a = 0xFC then 0
                     else r,
    ptr := 0, script := [], log := [] }

/-- The sensor `addrBus` on a bus whose second transfer, the 24-byte burst
read of `get_calib`, moves only 10 bytes; all other transfers are complete. -/
def shortBus : Bus :=
  { regs := fun a => a % 256, ptr := 0, script := [1, 10], log := [] }

/-- The sensor of `busOf r` with register `a` holding `v` instead. -/
def pokeBus (r a v : Nat) : Bus :=
  { regs := fun x => if x = a then v else r, ptr := 0, script := [], log := [] }

/-! ## Probe, display and transaction counts -/

/-- Source `get_chipid`: the byte of register 0xD0.  A short transfer only
prints a message; `buf` starts as 0. -/
def get_chipid (bus : Bus) : Nat × Bus :=
  let reg := BME280_CHIP_ID_ADDR
  let w := i2c_write [reg] bus
  let r := i2c_read (fun _ => 0) 1 w.bus
  (r.buf 0, r.bus)

/-- Source `get_i2cbus`.  `open_ok` says whether `open(i2cbus, O_RDWR)`
returned a descriptor, `ioctl_ok` whether `ioctl(i2cfd, I2C_SLAVE, addr)`
returned 0, `bus` is the device then reached.  `none` stands for `exit(-1)`;
`some` carries the bus on which later operations run. -/
def get_i2cbus (open_ok ioctl_ok : Bool) (bus : Bus) : Option Bus :=
  if open_ok = false then none
  else if ioctl_ok = false then none
  else
    let c := get_chipid bus
    if c.1 = 0 then none else some c.2

/-- Source `print_osrs`: the text printed for an oversampling value, `none`
for `exit(-1)`.  The test `mode < 0` cannot hold for an unsigned `char`. -/
def print_osrs (mode : Nat) : Option String :=
  if mode > 7 then none
  else
    match mode with
    | 0 => some "OFF (skip)\n"
    | 1 => some "1x\n"
    | 2 => some "2x\n"
    | 3 => some "4x\n"
    | 4 => some "8x\n"
    | 5 => some "16x\n"
    | 6 => some "16x\n"
    | 7 => some "16x\n"
    | _ => some ""

/-- The three measurement channels with an oversampling setting. -/
inductive Channel where
  | temperature | humidity | pressure
deriving DecidableEq, Repr

/-- The oversampling setter of a channel. -/
def Channel.set_osrs : Channel → String → Bus → Int × Bus
  | .temperature => set_t_osrs
  | .humidity => set_h_osrs
  | .pressure => set_p_osrs

/-- The oversampling getter of a channel. -/
def Channel.get_osrs : Channel → Bus → Nat × Bus
  | .temperature => get_t_osrs
  | .humidity => get_h_osrs
  | .pressure => get_p_osrs

/-- Number of write operations in a record of transactions, whatever their
length. -/
def busWrites : List Xfer → Nat
  | [] => 0
  | Xfer.wr _ _ :: rest => 1 + busWrites rest
  | Xfer.rd _ _ :: rest => busWrites rest

/-- The local `var1` of the pressure stage of `get_data` after its second
assignment, in exact arithmetic: the term `x` of the divisor
`(1.0 + x / 32768.0) * dig_P1`. -/
def press_x (tfine : Int) (bmec : bmecal) : ℚ :=
  let var1 : ℚ := (tfine : ℚ) / 2 - 64000
  ((bmec.dig_P3 : ℚ) * var1 * var1 / 524288 + (bmec.dig_P2 : ℚ) * var1) / 524288

/-- A sensor holding 0xFF everywhere, on a bus whose second transfer, the
1-byte read of a setter, moves no byte. -/
def readFailBus : Bus :=
  { regs := fun _ => 0xFF, ptr := 0, script := [1, 0], log := [] }

/-- A sensor holding 0xAB everywhere, on a bus whose first transfer moves no
byte. -/
def writeFailBus : Bus :=
  { regs := fun _ => 0xAB, ptr := 0, script := [0], log := [] }

/-- The sensor `addrBus` with the register pointer at 0xF4, on a bus whose
first transfer moves no byte. -/
def staleBus : Bus :=
  { regs := fun a => a % 256, ptr := 0xF4, script := [0], log := [] }

/-- Number of transactions in a record that moved fewer bytes than were
requested. -/
def shortXfers : List Xfer → Nat
  | [] => 0
  | Xfer.wr bytes done :: rest => (if done < bytes.length then 1 else 0) + shortXfers rest
  | Xfer.rd count done :: rest => (if done < count then 1 else 0) + shortXfers rest

/-! ## Measurement data in floating point

The exact-arithmetic definitions above serve the statements made in exact
arithmetic.  The definitions below follow the arithmetic the source really
performs on the target (gcc, ARM, `FLT_EVAL_METHOD` 0): an operation with two
`float` operands is carried out in binary32, an operation with a `double`
operand (every literal such as `16384.0` is a `double`) in binary64, and a
store into a `float` object rounds to binary32.  Each operation returns the
exact result rounded to nearest, ties to even.  The exponent range is not
modelled (the values of the temperature stage and of the pressure divisor
stay far inside it); a result that is not a finite number is `none`. -/

/-- Rounding of a rational to the nearest integer, ties to the even one. -/
def rne (q : ℚ) : Int :=
  if q - ⌊q⌋ < 1 / 2 then ⌊q⌋
  else if 1 / 2 < q - ⌊q⌋ then ⌊q⌋ + 1
  else if ⌊q⌋ % 2 = 0 then ⌊q⌋ else ⌊q⌋ + 1

/-- Rounding to a binary format with `p` significant bits: with
`e = floor (log2 |x|)` the result is the multiple of `2^(e-p+1)` nearest to
`x`, ties to even. -/
def fl (p : Nat) (x : ℚ) : ℚ :=
  if x = 0 then 0
  else (rne (x / 2 ^ (Int.log 2 |x| - (p : Int) + 1)) : ℚ) * 2 ^ (Int.log 2 |x| - (p : Int) + 1)

/-- Rounding to binary32 (`float`). -/
def f32 (x : ℚ) : ℚ := fl 24 x

/-- Rounding to binary64 (`double`). -/
def f64 (x : ℚ) : ℚ := fl 53 x

/-- The values of a binary format with `p` significant bits (any exponent). -/
def IsFloat (p : Nat) (y : ℚ) : Prop := ∃ m k : Int, |m| ≤ 2 ^ p ∧ y = (m : ℚ) * 2 ^ k

/-- A `double` division: the rounded quotient, or no finite number when the
divisor is 0 (the machine yields an infinity or a NaN). -/
def fdiv64 (a b : ℚ) : Option ℚ := if b = 0 then none else some (f64 (a / b))

/-- The `float` local `var1` of the temperature stage of `get_data`:
`(((float)adc_t)/16384.0 - ((float)dig_T1)/1024.0) * ((float)dig_T2)`, stored
in a `float`. -/
def var1_fl (adc_t : Int) (bmec : bmecal) : ℚ :=
  f32 (f64 (f64 (f64 (f32 (adc_t : ℚ) / 16384) - f64 (f32 (bmec.dig_T1 : ℚ) / 1024))
    * f32 (bmec.dig_T2 : ℚ)))

/-- The `float` local `var2` of the temperature stage of `get_data`. -/
def var2_fl (adc_t : Int) (bmec : bmecal) : ℚ :=
  f32 (f64 (f64
    (f64 (f64 (f32 (adc_t : ℚ) / 131072) - f64 (f32 (bmec.dig_T1 : ℚ) / 8192)) *
     f64 (f64 (f32 (adc_t : ℚ) / 131072) - f64 (f32 (bmec.dig_T1 : ℚ) / 8192)))
    * f32 (bmec.dig_T3 : ℚ)))

/-- The `float` sum `var1 + var2` that `get_data` converts to `long`. -/
def tsum_fl (adc_t : Int) (bmec : bmecal) : ℚ :=
  f32 (var1_fl adc_t bmec + var2_fl adc_t bmec)

/-- The `float` local `t_fine` of `get_data`: `(long)(var1 + var2)` stored in
a `float`. -/
def t_fine_fl (adc_t : Int) (bmec : bmecal) : ℚ :=
  f32 ((c_long (tsum_fl adc_t bmec) : Int) : ℚ)

/-- The `float` local `var1` of the pressure stage after its first
assignment, `((float)t_fine / 2.0) - 64000.0`. -/
def press_var1_fl (tfine : ℚ) : ℚ :=
  f32 (f64 (f64 (tfine / 2) - 64000))

/-- The `float` local `var2` of the pressure stage after its third
assignment. -/
def press_var2_fl (tfine : ℚ) (bmec : bmecal) : ℚ :=
  let var1 := press_var1_fl tfine
  let var2 := f32 (f64 (f32 (f32 (var1 * var1) * f32 (bmec.dig_P6 : ℚ)) / 32768))
  let var2 := f32 (f64 (var2 + f64 (f32 (var1 * f32 (bmec.dig_P5 : ℚ)) * 2)))
  f32 (f64 (f64 (var2 / 4) + f64 (f32 (bmec.dig_P4 : ℚ) * 65536)))

/-- The `float` local `var1` of the pressure stage after its second
assignment, `(dig_P3 * var1 * var1/524288.0 + dig_P2 * var1)/524288.0`: the
term `x` of the divisor. -/
def press_x_fl (tfine : ℚ) (bmec : bmecal) : ℚ :=
  let var1 := press_var1_fl tfine
  f32 (f64 (f64 (f64 (f32 (f32 (f32 (bmec.dig_P3 : ℚ) * var1) * var1) / 524288)
    + f32 (f32 (bmec.dig_P2 : ℚ) * var1)) / 524288))

/-- The `float` local `var1` of the pressure stage after its third
assignment, `(1.0 + var1 / 32768.0) * ((float)dig_P1)`: the divisor. -/
def press_divisor_fl (tfine : ℚ) (bmec : bmecal) : ℚ :=
  f32 (f64 (f64 (1 + f64 (press_x_fl tfine bmec / 32768)) * f32 (bmec.dig_P1 : ℚ)))

/-- The `float` local `p` of the pressure stage after the division
`(p - (var2/4096.0)) * 6250.0/var1`, from which `pres_p` is computed. -/
def press_p_fl (adc_p : Int) (tfine : ℚ) (bmec : bmecal) : Option ℚ :=
  let p := f32 (f64 (1048576 - f32 (adc_p : ℚ)))
  (fdiv64 (f64 (f64 (p - f64 (press_var2_fl tfine bmec / 4096)) * 6250))
    (press_divisor_fl tfine bmec)).map f32

/-- The `float` result `pres_p` of the pressure stage of `get_data`, computed
from the local `p` without any test of the divisor.  When `p` is no finite
number neither is `pres_p`. -/
def pres_p_fl (adc_p : Int) (tfine : ℚ) (bmec : bmecal) : Option ℚ :=
  (press_p_fl adc_p tfine bmec).map fun p =>
    let var1 := f32 (f64 (f32 (f32 (f32 (bmec.dig_P9 : ℚ) * p) * p) / 2147483648))
    let var2 := f32 (f64 (f32 (p * f32 (bmec.dig_P8 : ℚ)) / 32768))
    f32 (f64 (p + f64 (f32 (f32 (var1 + var2) + f32 (bmec.dig_P7 : ℚ)) / 16)))

/-- The `float` value assigned to `humi_p` in the humidity stage of
`get_data`, before the two clamping tests.  The integer coefficients and
`adc_h` meet `double` operands and are converted to `double`, except
`dig_H1 * var_H`, a product with the `float` `var_H`. -/
def humidity_fl (adc_h : Int) (tfine : ℚ) (bmec : bmecal) : ℚ :=
  let var_H := f32 (f64 (tfine - 76800))
  let var_H := f32 (f64
    (f64 ((adc_h : ℚ) - f64 (f64 ((bmec.dig_H4 : ℚ) * 64)
        + f64 (f64 ((bmec.dig_H5 : ℚ) / 16384) * var_H))) *
     f64 (f64 ((bmec.dig_H2 : ℚ) / 65536) *
       f64 (1 + f64 (f64 (f64 ((bmec.dig_H6 : ℚ) / 67108864) * var_H) *
         f64 (1 + f64 (f64 ((bmec.dig_H3 : ℚ) / 67108864) * var_H)))))))
  f32 (f64 (var_H * f64 (1 - f64 (f32 (f32 (bmec.dig_H1 : ℚ) * var_H) / 524288))))

/-- Source `get_data` in the `float` arithmetic of the machine. -/
def get_data_fl (bmec : bmecal) (bus : Bus) : bmedata × Bus :=
  let a := get_data_adc bus
  let adc := a.1
  let var1 := var1_fl adc.adc_t bmec
  let var2 := var2_fl adc.adc_t bmec
  let tfine := t_fine_fl adc.adc_t bmec
  let temp_c : ℚ := f32 (f64 (f32 (var1 + var2) / 5120))
  let temp_f : ℚ := f32 (f64 (f64 (temp_c * f64 1.8) + 32))
  let pres_p := pres_p_fl adc.adc_p tfine bmec
  let humi_p := humidity_fl adc.adc_h tfine bmec
  let humi_p : ℚ := if humi_p > 100 then 100 else if humi_p < 0 then 0 else humi_p
  ({ temp_c := temp_c, temp_f := temp_f, humi_p := humi_p, pres_p := pres_p }, a.2)

/-- A coefficient set with `dig_T2 = 28352`, `dig_P1 = 1`, `dig_P2 = -32767`
and every other coefficient zero. -/
def hazardCal : bmecal :=
  { dig_T1 := 0, dig_T2 := 28352, dig_T3 := 0, dig_P1 := 1, dig_P2 := -32767, dig_P3 := 0,
    dig_P4 := 0, dig_P5 := 0, dig_P6 := 0, dig_P7 := 0, dig_P8 := 0, dig_P9 := 0,
    dig_H1 := 0, dig_H2 := 0, dig_H3 := 0, dig_H4 := 0, dig_H5 := 0, dig_H6 := 0 }

/-! ## Transport lemmas -/

theorem select_read_buf (a n : Nat) (buf : Nat → Nat) (b : Bus) (hs : b.script = [])
    (i : Nat) :
    (i2c_read buf n (i2c_write [a] b).bus).buf i
      = if i < n then b.regs (a + i) % 256 else buf i := by
  simp [i2c_read, i2c_write, Bus.grant, hs]

theorem select_read_bus (a n : Nat) (buf : Nat → Nat) (b : Bus) (hs : b.script = []) :
    (i2c_read buf n (i2c_write [a] b).bus).bus
      = { regs := b.regs, ptr := a + n, script := [],
          log := Xfer.rd n n :: Xfer.wr [a] 1 :: b.log } := by
  simp [i2c_read, i2c_write, Bus.grant, hs]

/-! ## Calibration decoding -/

theorem store_s16_eq (v : Int) : store_s16 v = (v + 32768) % 65536 - 32768 := by
  unfold store_s16 to_int16
  simp only []
  split_ifs with h
  · omega
  · rfl

theorem store_s8_eq (v : Int) : store_s8 v = (v + 128) % 256 - 128 := by
  unfold store_s8 to_int8
  simp only []
  split_ifs with h
  · omega
  · rfl

/-- C1. Sign-extension law of `get_calib`: for each signed 16-bit coefficient
(T2, T3, P2..P9, H2) and every pair of register bytes `lsb`, `msb` in 0..255
at its two addresses, the stored coefficient is `lsb + msb*256` when that sum
is at most 32767 and `lsb + msb*256 - 65536` otherwise. -/
theorem get_calib_sign_extension (bus : Bus) (lsb msb : Nat) (p : (bmecal → Int) × Nat)
    (hs : bus.script = []) (hp : p ∈ signed_pair_coeffs)
    (hl : lsb < 256) (hm : msb < 256)
    (h1 : bus.regs p.2 = lsb) (h2 : bus.regs (p.2 + 1) = msb) :
    p.1 (get_calib bus).1
      = if lsb + msb * 256 ≤ 32767 then (lsb : Int) + (msb : Int) * 256
        else (lsb : Int) + (msb : Int) * 256 - 65536 := by
  simp only [signed_pair_coeffs, List.mem_cons, List.mem_singleton, List.not_mem_nil,
    or_false] at hp
  rcases hp with rfl | rfl | rfl | rfl | rfl | rfl | rfl | rfl | rfl | rfl | rfl <;>
  · simp only [Nat.reduceAdd] at h1 h2
    subst h1 h2
    simp only [get_calib, select_read_buf, select_read_bus, hs, store_s16_eq,
      BME280_CALIB_00_ADDR, BME280_CALIB_25_ADDR, BME280_CALIB_26_ADDR]
    simp only [Nat.reduceAdd, Nat.reduceLT, if_true, Nat.add_zero]
    split_ifs <;> omega

/-- Witness for C1: on `addrBus` the pair at 0x90/0x91 is (144, 145), above
32767 as an unsigned value, and `dig_P2` is stored as 37264 - 65536. -/
theorem get_calib_sign_extension_witness :
    addrBus.script = [] ∧ (bmecal.dig_P2, 0x90) ∈ signed_pair_coeffs ∧
    144 < 256 ∧ 145 < 256 ∧ addrBus.regs 0x90 = 144 ∧ addrBus.regs (0x90 + 1) = 145 ∧
    (get_calib addrBus).1.dig_P2 = -28272 :=
  ⟨rfl, by simp [signed_pair_coeffs], by decide, by decide, rfl, rfl, by
    simpa using get_calib_sign_extension addrBus 144 145 (bmecal.dig_P2, 0x90) rfl
      (by simp [signed_pair_coeffs]) (by decide) (by decide) rfl rfl⟩

/-- C6. H4 decoding: for all bytes `b3`, `b4` in 0..255 at offsets 3 and 4 of
the window read from 0xE1, `get_calib` stores
`dig_H4 = b3*16 + (b4 AND 0x0F)`, reduced by 65536 if that exceeds 32767. -/
theorem get_calib_dig_H4 (bus : Bus) (b3 b4 : Nat) (hs : bus.script = [])
    (h3 : b3 < 256) (h4 : b4 < 256)
    (hr3 : bus.regs (0xE1 + 3) = b3) (hr4 : bus.regs (0xE1 + 4) = b4) :
    (get_calib bus).1.dig_H4
      = if b3 * 16 + (b4 &&& 0x0F) > 32767
        then ((b3 * 16 + (b4 &&& 0x0F) : Nat) : Int) - 65536
        else ((b3 * 16 + (b4 &&& 0x0F) : Nat) : Int) := by
  simp only [Nat.reduceAdd] at hr3 hr4
  subst hr3 hr4
  have hand : ∀ x : Nat, x &&& 0xF = x % 16 := fun x => Nat.and_pow_two_sub_one_eq_mod x 4
  simp only [get_calib, select_read_buf, select_read_bus, hs, store_s16_eq,
    BME280_CALIB_00_ADDR, BME280_CALIB_25_ADDR, BME280_CALIB_26_ADDR, hand]
  simp only [Nat.reduceAdd, Nat.reduceLT, if_true]
  split_ifs <;> omega

/-- Witness for C6: bytes 228 and 229 at 0xE4 and 0xE5 give 228*16 + 5. -/
theorem get_calib_dig_H4_witness :
    addrBus.script = [] ∧ 228 < 256 ∧ 229 < 256 ∧
    addrBus.regs (0xE1 + 3) = 228 ∧ addrBus.regs (0xE1 + 4) = 229 ∧
    (get_calib addrBus).1.dig_H4 = 3653 :=
  ⟨rfl, by decide, by decide, rfl, rfl, by
    simpa using get_calib_dig_H4 addrBus 228 229 rfl (by decide) (by decide) rfl rfl⟩

/-- C7. H5 decoding: for all bytes `b4`, `b5` in 0..255 at offsets 4 and 5 of
the window read from 0xE1, `get_calib` stores `dig_H5 = (b4 >> 4) + b5*16`,
reduced by 65536 if that exceeds 32767; the division `b4/16` of the code is
the shift `b4 >> 4`. -/
theorem get_calib_dig_H5 (bus : Bus) (b4 b5 : Nat) (hs : bus.script = [])
    (h4 : b4 < 256) (h5 : b5 < 256)
    (hr4 : bus.regs (0xE1 + 4) = b4) (hr5 : bus.regs (0xE1 + 5) = b5) :
    (get_calib bus).1.dig_H5
      = (if (b4 >>> 4) + b5 * 16 > 32767
         then (((b4 >>> 4) + b5 * 16 : Nat) : Int) - 65536
         else (((b4 >>> 4) + b5 * 16 : Nat) : Int))
    ∧ b4 / 16 = b4 >>> 4 := by
  simp only [Nat.reduceAdd] at hr4 hr5
  subst hr4 hr5
  have hshr : ∀ x : Nat, x >>> 4 = x / 16 := fun x => Nat.shiftRight_eq_div_pow x 4
  simp only [get_calib, select_read_buf, select_read_bus, hs, store_s16_eq,
    BME280_CALIB_00_ADDR, BME280_CALIB_25_ADDR, BME280_CALIB_26_ADDR, hshr]
  simp only [Nat.reduceAdd, Nat.reduceLT, if_true]
  refine ⟨?_, trivial⟩
  split_ifs <;> omega

/-- Witness for C7: bytes 229 and 230 at 0xE5 and 0xE6 give 14 + 230*16. -/
theorem get_calib_dig_H5_witness :
    addrBus.script = [] ∧ 229 < 256 ∧ 230 < 256 ∧
    addrBus.regs (0xE1 + 4) = 229 ∧ addrBus.regs (0xE1 + 5) = 230 ∧
    (get_calib addrBus).1.dig_H5 = 3694 ∧ 229 / 16 = 229 >>> 4 :=
  ⟨rfl, by decide, by decide, rfl, rfl, by
    simpa using get_calib_dig_H5 addrBus 229 230 rfl (by decide) (by decide) rfl rfl⟩

/-- C8. H6 decoding: for every byte `b` in 0..255 at offset 6 of the window
read from 0xE1, `get_calib` stores `dig_H6 = b` when `b <= 127` and `b - 256`
when `b > 127`, so `dig_H6` lies in -128..127. -/
theorem get_calib_dig_H6 (bus : Bus) (b : Nat) (hs : bus.script = [])
    (hb : b < 256) (hr : bus.regs (0xE1 + 6) = b) :
    (get_calib bus).1.dig_H6 = (if b ≤ 127 then (b : Int) else (b : Int) - 256)
    ∧ -128 ≤ (get_calib bus).1.dig_H6 ∧ (get_calib bus).1.dig_H6 ≤ 127 := by
  simp only [Nat.reduceAdd] at hr
  subst hr
  simp only [get_calib, select_read_buf, select_read_bus, hs, store_s8_eq,
    BME280_CALIB_00_ADDR, BME280_CALIB_25_ADDR, BME280_CALIB_26_ADDR]
  simp only [Nat.reduceAdd, Nat.reduceLT, if_true]
  split_ifs <;> omega

/-- Witness for C8: byte 231 at 0xE7 is stored as 231 - 256. -/
theorem get_calib_dig_H6_witness :
    addrBus.script = [] ∧ 231 < 256 ∧ addrBus.regs (0xE1 + 6) = 231 ∧
    (get_calib addrBus).1.dig_H6 = -25 ∧
    -128 ≤ (get_calib addrBus).1.dig_H6 ∧ (get_calib addrBus).1.dig_H6 ≤ 127 :=
  ⟨rfl, by decide, rfl, by
    simpa using get_calib_dig_H6 addrBus 231 rfl (by decide) rfl⟩

/-- C9. Unsigned coefficients: with all register bytes in 0..255, `get_calib`
stores `dig_T1 = bytes[0] + bytes[1]*256` and `dig_P1 = bytes[6] + bytes[7]*256`
of the window at 0x88, both in 0..65535 without sign extension, `dig_H1` equal
to the byte at 0xA1 and `dig_H3` equal to byte 2 of the window at 0xE1, both
in 0..255. -/
theorem get_calib_unsigned (bus : Bus) (hs : bus.script = [])
    (hb : ∀ a, bus.regs a < 256) :
    ((get_calib bus).1.dig_T1 = (bus.regs 0x88 : Int) + (bus.regs (0x88 + 1) : Int) * 256
      ∧ 0 ≤ (get_calib bus).1.dig_T1 ∧ (get_calib bus).1.dig_T1 ≤ 65535)
    ∧ ((get_calib bus).1.dig_P1
          = (bus.regs (0x88 + 6) : Int) + (bus.regs (0x88 + 7) : Int) * 256
      ∧ 0 ≤ (get_calib bus).1.dig_P1 ∧ (get_calib bus).1.dig_P1 ≤ 65535)
    ∧ ((get_calib bus).1.dig_H1 = (bus.regs 0xA1 : Int)
      ∧ 0 ≤ (get_calib bus).1.dig_H1 ∧ (get_calib bus).1.dig_H1 ≤ 255)
    ∧ ((get_calib bus).1.dig_H3 = (bus.regs (0xE1 + 2) : Int)
      ∧ 0 ≤ (get_calib bus).1.dig_H3 ∧ (get_calib bus).1.dig_H3 ≤ 255) := by
  have hand : ∀ x : Nat, x &&& 0xFF = x % 256 := fun x => Nat.and_pow_two_sub_one_eq_mod x 8
  have h88 := hb 0x88
  have h89 := hb 0x89
  have h8E := hb 0x8E
  have h8F := hb 0x8F
  have hA1 := hb 0xA1
  have hE3 := hb 0xE3
  simp only [get_calib, select_read_buf, select_read_bus, hs, to_uint16, to_uint8,
    BME280_CALIB_00_ADDR, BME280_CALIB_25_ADDR, BME280_CALIB_26_ADDR, hand]
  simp only [Nat.reduceAdd, Nat.reduceLT, if_true, Nat.add_zero]
  omega

/-- Witness for C9 on `addrBus`. -/
theorem get_calib_unsigned_witness :
    addrBus.script = [] ∧ (∀ a, addrBus.regs a < 256) ∧
    (get_calib addrBus).1.dig_T1 = 35208 ∧ (get_calib addrBus).1.dig_P1 = 36750 ∧
    (get_calib addrBus).1.dig_H1 = 161 ∧ (get_calib addrBus).1.dig_H3 = 227 := by
  have hb : ∀ a, addrBus.regs a < 256 := fun a => Nat.mod_lt a (by decide)
  have h := get_calib_unsigned addrBus rfl hb
  refine ⟨rfl, hb, ?_, ?_, ?_, ?_⟩
  · simpa [addrBus] using h.1.1
  · simpa [addrBus] using h.2.1.1
  · simpa [addrBus] using h.2.2.1.1
  · simpa [addrBus] using h.2.2.2.1

/-! ## The `strcmp` chains as arithmetic on the register byte -/

theorem Bus.grant_le (b : Bus) (n : Nat) : b.grant n ≤ n := by
  unfold Bus.grant
  split
  · exact Nat.le_refl n
  · exact Nat.min_le_right _ _

set_option maxRecDepth 100000 in
theorem t_osrs_bits_eq (mode : String) (r : Nat) (hr : r < 256) :
    t_osrs_bits mode r =
      if mode = "skip" then some (0 * 32 + r % 32)
      else if mode = "1" then some (1 * 32 + r % 32)
      else if mode = "2" then some (2 * 32 + r % 32)
      else if mode = "4" then some (3 * 32 + r % 32)
      else if mode = "8" then some (4 * 32 + r % 32)
      else if mode = "16" then some (6 * 32 + r % 32)
      else none := by
  unfold t_osrs_bits
  split_ifs <;> first | rfl | (revert hr; revert r; decide)

set_option maxRecDepth 100000 in
theorem p_osrs_bits_eq (mode : String) (r : Nat) (hr : r < 256) :
    p_osrs_bits mode r =
      if mode = "skip" then some (r / 32 * 32 + 0 * 4 + r % 4)
      else if mode = "1" then some (r / 32 * 32 + 1 * 4 + r % 4)
      else if mode = "2" then some (r / 32 * 32 + 2 * 4 + r % 4)
      else if mode = "4" then some (r / 32 * 32 + 3 * 4 + r % 4)
      else if mode = "8" then some (r / 32 * 32 + 4 * 4 + r % 4)
      else if mode = "16" then some (r / 32 * 32 + 6 * 4 + r % 4)
      else none := by
  unfold p_osrs_bits
  split_ifs <;> first | rfl | (revert hr; revert r; decide)

set_option maxRecDepth 100000 in
theorem filter_bits_eq (mode : String) (r : Nat) (hr : r < 256) :
    filter_bits mode r =
      if mode = "off" then some (r / 32 * 32 + 0 * 4 + r % 4)
      else if mode = "2" then some (r / 32 * 32 + 1 * 4 + r % 4)
      else if mode = "4" then some (r / 32 * 32 + 2 * 4 + r % 4)
      else if mode = "8" then some (r / 32 * 32 + 3 * 4 + r % 4)
      else if mode = "16" then some (r / 32 * 32 + 4 * 4 + r % 4)
      else none := by
  unfold filter_bits
  split_ifs <;> first | rfl | (revert hr; revert r; decide)

set_option maxRecDepth 100000 in
theorem stby_bits_eq (mode : String) (r : Nat) (hr : r < 256) :
    stby_bits mode r =
      if mode = "0.5" then some (0 * 32 + r % 32)
      else if mode = "62.5" then some (1 * 32 + r % 32)
      else if mode = "125" then some (2 * 32 + r % 32)
      else if mode = "250" then some (3 * 32 + r % 32)
      else if mode = "500" then some (4 * 32 + r % 32)
      else if mode = "1000" then some (5 * 32 + r % 32)
      else if mode = "10" then some (6 * 32 + r % 32)
      else if mode = "20" then some (7 * 32 + r % 32)
      else none := by
  unfold stby_bits
  split_ifs <;> first | rfl | (revert hr; revert r; decide)

/-! ## Setters and getters on a bus whose transfers are complete -/

theorem set_field_ok (reg : Nat) (chain : String → Nat → Option Nat) (mode : String)
    (bus : Bus) (hs : bus.script = []) :
    set_field reg chain mode bus =
      match chain mode (bus.regs reg % 256) with
      | none => (-1, { regs := bus.regs, ptr := reg + 1, script := [],
                       log := Xfer.rd 1 1 :: Xfer.wr [reg] 1 :: bus.log })
      | some x => (0, { regs := fun a => if a = reg then x % 256 else bus.regs a,
                        ptr := reg, script := [],
                        log := Xfer.wr [reg, x] 2 :: Xfer.rd 1 1 :: Xfer.wr [reg] 1
                                 :: bus.log }) := by
  unfold set_field
  simp only [select_read_buf, select_read_bus, hs, Nat.add_zero, Nat.lt_one_iff, if_true]
  rcases h : chain mode (bus.regs reg % 256) with _ | x <;>
    simp [h, write_reg, i2c_write, Bus.grant]

theorem and_seven (x : Nat) : x &&& 0x07 = x % 8 := Nat.and_pow_two_sub_one_eq_mod x 3

theorem get_h_osrs_ok (bus : Bus) (hs : bus.script = []) :
    (get_h_osrs bus).1 = bus.regs 0xF2 % 256 % 8 := by
  simp [get_h_osrs, select_read_buf, hs, and_seven, BME280_CTRL_HUM_ADDR]

theorem get_p_osrs_ok (bus : Bus) (hs : bus.script = []) :
    (get_p_osrs bus).1 = bus.regs 0xF4 % 256 / 4 % 8 := by
  simp [get_p_osrs, select_read_buf, hs, and_seven, BME280_CTRL_MEAS_ADDR,
    Nat.shiftRight_eq_div_pow]

theorem get_t_osrs_ok (bus : Bus) (hs : bus.script = []) :
    (get_t_osrs bus).1 = bus.regs 0xF4 % 256 / 32 % 8 := by
  simp [get_t_osrs, select_read_buf, hs, and_seven, BME280_CTRL_MEAS_ADDR,
    Nat.shiftRight_eq_div_pow]

theorem get_filter_ok (bus : Bus) (hs : bus.script = []) :
    (get_filter bus).1 = bus.regs 0xF5 % 256 / 4 % 8 := by
  simp [get_filter, select_read_buf, hs, and_seven, BME280_CONFIG_ADDR,
    Nat.shiftRight_eq_div_pow]

theorem get_stby_ok (bus : Bus) (hs : bus.script = []) :
    (get_stby bus).1 = bus.regs 0xF5 % 256 / 32 % 8 := by
  simp [get_stby, select_read_buf, hs, and_seven, BME280_CONFIG_ADDR,
    Nat.shiftRight_eq_div_pow]

theorem set_field_script (reg : Nat) (chain : String → Nat → Option Nat) (mode : String)
    (bus : Bus) (hs : bus.script = []) : (set_field reg chain mode bus).2.script = [] := by
  rw [set_field_ok reg chain mode bus hs]
  cases chain mode (bus.regs reg % 256) <;> rfl

theorem set_h_osrs_ok (mode : String) (bus : Bus) (hs : bus.script = []) :
    set_h_osrs mode bus =
      match h_osrs_code mode with
      | none => (-1, bus)
      | some c => (0, { regs := fun a => if a = 0xF2 then c % 256 else bus.regs a,
                        ptr := 0xF2, script := [],
                        log := Xfer.wr [0xF2, c] 2 :: bus.log }) := by
  unfold set_h_osrs
  rcases h : h_osrs_code mode with _ | c <;>
    simp [h, write_reg, i2c_write, Bus.grant, hs, BME280_CTRL_HUM_ADDR]

theorem testBit_eq_of_mod_32 (x r : Nat) (h : x % 32 = r % 32) (i : Nat) (hi : i ≤ 4) :
    x.testBit i = r.testBit i := by
  have key : x / 2 ^ i % 2 = r / 2 ^ i % 2 := by
    interval_cases i <;> norm_num <;> omega
  rw [Nat.testBit_to_div_mod, Nat.testBit_to_div_mod, key]

theorem testBit_eq_of_mod_4 (x r : Nat) (h : x % 4 = r % 4) (i : Nat) (hi : i ≤ 1) :
    x.testBit i = r.testBit i := by
  have key : x / 2 ^ i % 2 = r / 2 ^ i % 2 := by
    interval_cases i <;> norm_num <;> omega
  rw [Nat.testBit_to_div_mod, Nat.testBit_to_div_mod, key]

theorem testBit_eq_of_div_32 (x r : Nat) (h : x / 32 = r / 32) (i : Nat) (hi : 5 ≤ i) :
    x.testBit i = r.testBit i := by
  obtain ⟨j, rfl⟩ : ∃ j, i = 5 + j := ⟨i - 5, by omega⟩
  have hx : x.testBit (5 + j) = (x / 32).testBit j := by
    rw [← Nat.testBit_shiftRight, Nat.shiftRight_eq_div_pow]
  have hr : r.testBit (5 + j) = (r / 32).testBit j := by
    rw [← Nat.testBit_shiftRight, Nat.shiftRight_eq_div_pow]
  rw [hx, hr, h]

/-- C10. Standby and filter lookup tables: for every initial content of
register 0xF5 (transfers complete, the register storing what is written),
`get_stby` after `set_stby(v)` returns 0.5->0, 62.5->1, 125->2, 250->3, 500->4,
1000->5, 10->6, 20->7, and `get_filter` after `set_filter(v)` returns off->0,
2->1, 4->2, 8->3, 16->4. -/
theorem stby_filter_lookup (bus : Bus) (p q : String × Nat) (hs : bus.script = [])
    (hp : p ∈ [("0.5", 0), ("62.5", 1), ("125", 2), ("250", 3), ("500", 4),
               ("1000", 5), ("10", 6), ("20", 7)])
    (hq : q ∈ [("off", 0), ("2", 1), ("4", 2), ("8", 3), ("16", 4)]) :
    (get_stby (set_stby p.1 bus).2).1 = p.2 ∧
    (get_filter (set_filter q.1 bus).2).1 = q.2 := by
  have hr : bus.regs 0xF5 % 256 < 256 := Nat.mod_lt _ (by decide)
  constructor
  · unfold set_stby
    rw [get_stby_ok _ (set_field_script _ _ _ bus hs)]
    simp only [BME280_CONFIG_ADDR, set_field_ok _ _ _ bus hs, stby_bits_eq _ _ hr]
    simp only [List.mem_cons, List.mem_singleton, List.not_mem_nil, or_false] at hp
    rcases hp with rfl | rfl | rfl | rfl | rfl | rfl | rfl | rfl <;>
      simp <;> omega
  · unfold set_filter
    rw [get_filter_ok _ (set_field_script _ _ _ bus hs)]
    simp only [BME280_CONFIG_ADDR, set_field_ok _ _ _ bus hs,
      filter_bits_eq _ _ hr]
    simp only [List.mem_cons, List.mem_singleton, List.not_mem_nil, or_false] at hq
    rcases hq with rfl | rfl | rfl | rfl | rfl <;>
      simp <;> omega

/-- Witness for C10: from the byte 0xFF, "1000" is read back as 5 and "8" as 3. -/
theorem stby_filter_lookup_witness :
    (busOf 0xFF).script = [] ∧
    ("1000", 5) ∈ [("0.5", 0), ("62.5", 1), ("125", 2), ("250", 3), ("500", 4),
                   ("1000", 5), ("10", 6), ("20", 7)] ∧
    ("8", 3) ∈ [("off", 0), ("2", 1), ("4", 2), ("8", 3), ("16", 4)] ∧
    (get_stby (set_stby "1000" (busOf 0xFF)).2).1 = 5 ∧
    (get_filter (set_filter "8" (busOf 0xFF)).2).1 = 3 :=
  ⟨rfl, by decide, by decide,
    stby_filter_lookup (busOf 0xFF) ("1000", 5) ("8", 3) rfl (by decide) (by decide)⟩

/-- C3. Field preservation in the measurement-control register 0xF4: for
every current byte and every recognized oversampling name, the byte written by
`set_t_osrs` has bits 4..0 equal to those of the current byte, and the byte
written by `set_p_osrs` has bits 7..5 and bits 1..0 equal to those of the
current byte. -/
theorem ctrl_meas_field_preservation (bus : Bus) (mode : String) (hs : bus.script = [])
    (hr : bus.regs 0xF4 < 256) (hm : mode ∈ ["skip", "1", "2", "4", "8", "16"]) :
    (∃ x, (set_t_osrs mode bus).2.log
            = Xfer.wr [0xF4, x] 2 :: Xfer.rd 1 1 :: Xfer.wr [0xF4] 1 :: bus.log ∧
          ∀ i, i ≤ 4 → x.testBit i = (bus.regs 0xF4).testBit i) ∧
    (∃ x, (set_p_osrs mode bus).2.log
            = Xfer.wr [0xF4, x] 2 :: Xfer.rd 1 1 :: Xfer.wr [0xF4] 1 :: bus.log ∧
          ∀ i, (5 ≤ i ∧ i ≤ 7) ∨ i ≤ 1 → x.testBit i = (bus.regs 0xF4).testBit i) := by
  have hr' : bus.regs 0xF4 % 256 = bus.regs 0xF4 := Nat.mod_eq_of_lt hr
  simp only [List.mem_cons, List.mem_singleton, List.not_mem_nil, or_false] at hm
  constructor
  · unfold set_t_osrs
    simp only [BME280_CTRL_MEAS_ADDR, set_field_ok _ _ _ bus hs, hr', t_osrs_bits_eq _ _ hr]
    rcases hm with rfl | rfl | rfl | rfl | rfl | rfl <;>
    · simp
      intro i hi
      exact testBit_eq_of_mod_32 _ _ (by omega) i hi
  · unfold set_p_osrs
    simp only [BME280_CTRL_MEAS_ADDR, set_field_ok _ _ _ bus hs, hr', p_osrs_bits_eq _ _ hr]
    rcases hm with rfl | rfl | rfl | rfl | rfl | rfl <;>
    · simp
      rintro i (hi | hi)
      · exact testBit_eq_of_div_32 _ _ (by omega) i hi.1
      · exact testBit_eq_of_mod_4 _ _ (by omega) i hi

/-- Witness for C3: from the byte 0xAB, `set_t_osrs("4")` and
`set_p_osrs("4")` each write a byte that keeps the bits they do not own. -/
theorem ctrl_meas_field_preservation_witness :
    (busOf 0xAB).script = [] ∧ (busOf 0xAB).regs 0xF4 < 256 ∧
    "4" ∈ ["skip", "1", "2", "4", "8", "16"] ∧
    (∃ x, (set_t_osrs "4" (busOf 0xAB)).2.log
            = Xfer.wr [0xF4, x] 2 :: Xfer.rd 1 1 :: Xfer.wr [0xF4] 1 :: (busOf 0xAB).log ∧
          ∀ i, i ≤ 4 → x.testBit i = ((busOf 0xAB).regs 0xF4).testBit i) ∧
    (∃ x, (set_p_osrs "4" (busOf 0xAB)).2.log
            = Xfer.wr [0xF4, x] 2 :: Xfer.rd 1 1 :: Xfer.wr [0xF4] 1 :: (busOf 0xAB).log ∧
          ∀ i, (5 ≤ i ∧ i ≤ 7) ∨ i ≤ 1 →
            x.testBit i = ((busOf 0xAB).regs 0xF4).testBit i) :=
  ⟨rfl, by decide, by decide,
    ctrl_meas_field_preservation (busOf 0xAB) "4" rfl (by decide) (by decide)⟩

/-- C4. Field preservation in the config register 0xF5: for every current
byte and every recognized name, the byte written by `set_filter` has bits 7..5
and bits 1..0 equal to those of the current byte, and the byte written by
`set_stby` has bits 4..0 equal to those of the current byte. -/
theorem config_field_preservation (bus : Bus) (fmode smode : String)
    (hs : bus.script = []) (hr : bus.regs 0xF5 < 256)
    (hf : fmode ∈ ["off", "2", "4", "8", "16"])
    (hsb : smode ∈ ["0.5", "62.5", "125", "250", "500", "1000", "10", "20"]) :
    (∃ x, (set_filter fmode bus).2.log
            = Xfer.wr [0xF5, x] 2 :: Xfer.rd 1 1 :: Xfer.wr [0xF5] 1 :: bus.log ∧
          ∀ i, (5 ≤ i ∧ i ≤ 7) ∨ i ≤ 1 → x.testBit i = (bus.regs 0xF5).testBit i) ∧
    (∃ x, (set_stby smode bus).2.log
            = Xfer.wr [0xF5, x] 2 :: Xfer.rd 1 1 :: Xfer.wr [0xF5] 1 :: bus.log ∧
          ∀ i, i ≤ 4 → x.testBit i = (bus.regs 0xF5).testBit i) := by
  have hr' : bus.regs 0xF5 % 256 = bus.regs 0xF5 := Nat.mod_eq_of_lt hr
  simp only [List.mem_cons, List.mem_singleton, List.not_mem_nil, or_false] at hf hsb
  constructor
  · unfold set_filter
    simp only [BME280_CONFIG_ADDR, set_field_ok _ _ _ bus hs, hr', filter_bits_eq _ _ hr]
    rcases hf with rfl | rfl | rfl | rfl | rfl <;>
    · simp
      rintro i (hi | hi)
      · exact testBit_eq_of_div_32 _ _ (by omega) i hi.1
      · exact testBit_eq_of_mod_4 _ _ (by omega) i hi
  · unfold set_stby
    simp only [BME280_CONFIG_ADDR, set_field_ok _ _ _ bus hs, hr', stby_bits_eq _ _ hr]
    rcases hsb with rfl | rfl | rfl | rfl | rfl | rfl | rfl | rfl <;>
    · simp
      intro i hi
      exact testBit_eq_of_mod_32 _ _ (by omega) i hi

/-- Witness for C4: from the byte 0xAB, `set_filter("16")` and
`set_stby("1000")` each write a byte that keeps the bits they do not own. -/
theorem config_field_preservation_witness :
    (busOf 0xAB).script = [] ∧ (busOf 0xAB).regs 0xF5 < 256 ∧
    "16" ∈ ["off", "2", "4", "8", "16"] ∧
    "1000" ∈ ["0.5", "62.5", "125", "250", "500", "1000", "10", "20"] ∧
    (∃ x, (set_filter "16" (busOf 0xAB)).2.log
            = Xfer.wr [0xF5, x] 2 :: Xfer.rd 1 1 :: Xfer.wr [0xF5] 1 :: (busOf 0xAB).log ∧
          ∀ i, (5 ≤ i ∧ i ≤ 7) ∨ i ≤ 1 →
            x.testBit i = ((busOf 0xAB).regs 0xF5).testBit i) ∧
    (∃ x, (set_stby "1000" (busOf 0xAB)).2.log
            = Xfer.wr [0xF5, x] 2 :: Xfer.rd 1 1 :: Xfer.wr [0xF5] 1 :: (busOf 0xAB).log ∧
          ∀ i, i ≤ 4 → x.testBit i = ((busOf 0xAB).regs 0xF5).testBit i) :=
  ⟨rfl, by decide, by decide, by decide,
    config_field_preservation (busOf 0xAB) "16" "1000" rfl (by decide) (by decide)
      (by decide)⟩

/-! ## Rejected names -/

theorem set_field_reject (reg : Nat) (chain : String → Nat → Option Nat) (mode : String)
    (bus : Bus) (h : ∀ r, chain mode r = none) :
    (set_field reg chain mode bus).1 = -1 ∧
    (set_field reg chain mode bus).2.regs = bus.regs ∧
    regWrites (set_field reg chain mode bus).2.log = regWrites bus.log := by
  have hg : ¬ 2 ≤ bus.grant 1 := by
    have := bus.grant_le 1
    omega
  unfold set_field
  simp only [h]
  simp [i2c_read, i2c_write, regWrites, hg]

/-- C5. Validation failure: each of `set_h_osrs`, `set_t_osrs`, `set_p_osrs`,
`set_filter`, `set_stby`, called with a string that is not one of its
recognized names, returns -1 and stores nothing: no transaction writes a
register, and every register holds what it held before the call.  This holds
whatever the bus transfers do. -/
theorem setter_rejects_unknown_name (s : Setter) (mode : String) (bus : Bus)
    (h : mode ∉ s.names) :
    (s.run mode bus).1 = -1 ∧ (s.run mode bus).2.regs = bus.regs ∧
    regWrites (s.run mode bus).2.log = regWrites bus.log := by
  cases s <;>
    simp only [Setter.names, List.mem_cons, List.mem_singleton, List.not_mem_nil,
      or_false, not_or] at h
  · have hc : h_osrs_code mode = none := by simp [h_osrs_code, h]
    simp [Setter.run, set_h_osrs, hc]
  · exact set_field_reject _ _ _ _ (fun r => by simp [t_osrs_bits, h])
  · exact set_field_reject _ _ _ _ (fun r => by simp [p_osrs_bits, h])
  · exact set_field_reject _ _ _ _ (fun r => by simp [filter_bits, h])
  · exact set_field_reject _ _ _ _ (fun r => by simp [stby_bits, h])

/-- Witness for C5: `set_stby("16")` ("16" is a filter name, not a standby
time) on a sensor holding 0xAB everywhere. -/
theorem setter_rejects_unknown_name_witness :
    "16" ∉ Setter.stby.names ∧
    (Setter.stby.run "16" (busOf 0xAB)).1 = -1 ∧
    (Setter.stby.run "16" (busOf 0xAB)).2.regs = (busOf 0xAB).regs ∧
    regWrites (Setter.stby.run "16" (busOf 0xAB)).2.log = regWrites (busOf 0xAB).log :=
  ⟨by decide, setter_rejects_unknown_name Setter.stby "16" (busOf 0xAB) (by decide)⟩

/-! ## Oversampling: what is read back after a set -/

/-- On a bus whose transfers are complete, each oversampling setter returns 0
for a recognized name and the matching getter then returns: for humidity the
codes skip->0, 1->1, 2->2, 4->3, 8->4, 16->5; for temperature and pressure
the same codes except that "16" is read back as 6. -/
theorem osrs_set_then_get (bus : Bus) (ph ptp : String × Nat) (hs : bus.script = [])
    (hh : ph ∈ [("skip", 0), ("1", 1), ("2", 2), ("4", 3), ("8", 4), ("16", 5)])
    (htp : ptp ∈ [("skip", 0), ("1", 1), ("2", 2), ("4", 3), ("8", 4), ("16", 6)]) :
    ((set_h_osrs ph.1 bus).1 = 0 ∧ (get_h_osrs (set_h_osrs ph.1 bus).2).1 = ph.2) ∧
    ((set_t_osrs ptp.1 bus).1 = 0 ∧ (get_t_osrs (set_t_osrs ptp.1 bus).2).1 = ptp.2) ∧
    ((set_p_osrs ptp.1 bus).1 = 0 ∧ (get_p_osrs (set_p_osrs ptp.1 bus).2).1 = ptp.2) := by
  have hr : bus.regs 0xF4 % 256 < 256 := Nat.mod_lt _ (by decide)
  simp only [List.mem_cons, List.mem_singleton, List.not_mem_nil, or_false] at hh htp
  refine ⟨?_, ?_, ?_⟩
  · have hsc : (set_h_osrs ph.1 bus).2.script = [] := by
      rw [set_h_osrs_ok _ bus hs]
      cases h_osrs_code ph.1 <;> first | rfl | exact hs
    rw [get_h_osrs_ok _ hsc, set_h_osrs_ok _ bus hs]
    rcases hh with rfl | rfl | rfl | rfl | rfl | rfl <;> simp [h_osrs_code]
  · unfold set_t_osrs
    rw [get_t_osrs_ok _ (set_field_script _ _ _ bus hs)]
    simp only [BME280_CTRL_MEAS_ADDR, set_field_ok _ _ _ bus hs, t_osrs_bits_eq _ _ hr]
    rcases htp with rfl | rfl | rfl | rfl | rfl | rfl <;>
      simp <;> omega
  · unfold set_p_osrs
    rw [get_p_osrs_ok _ (set_field_script _ _ _ bus hs)]
    simp only [BME280_CTRL_MEAS_ADDR, set_field_ok _ _ _ bus hs, p_osrs_bits_eq _ _ hr]
    rcases htp with rfl | rfl | rfl | rfl | rfl | rfl <;>
      simp <;> omega

/-- C2 (the code departs from the claim). On a sensor whose registers hold 0,
`set_t_osrs("16")` and `set_p_osrs("16")` return 0 and the byte they store in
0xF4 carries the field value 6 (bits 110), so `get_t_osrs` and `get_p_osrs`
return 6, where the lookup table and `set_h_osrs` have 5. -/
theorem set_osrs_16_reads_back_6 :
    (set_t_osrs "16" (busOf 0)).1 = 0 ∧
    (set_t_osrs "16" (busOf 0)).2.regs 0xF4 = 0xC0 ∧
    (get_t_osrs (set_t_osrs "16" (busOf 0)).2).1 = 6 ∧
    (set_p_osrs "16" (busOf 0)).1 = 0 ∧
    (set_p_osrs "16" (busOf 0)).2.regs 0xF4 = 0x18 ∧
    (get_p_osrs (set_p_osrs "16" (busOf 0)).2).1 = 6 ∧
    (set_h_osrs "16" (busOf 0)).1 = 0 ∧
    (get_h_osrs (set_h_osrs "16" (busOf 0)).2).1 = 5 := by
  decide

/-! ## Getters: the owned bits -/

theorem getter_run_ok (g : Getter) (bus : Bus) (hs : bus.script = []) :
    (g.run bus).1 = ((bus.regs g.reg % 256) >>> g.shift) &&& g.mask := by
  cases g <;>
    simp [Getter.run, Getter.reg, Getter.shift, Getter.mask, Getter.width, get_h_osrs,
      get_p_osrs, get_t_osrs, get_power, get_filter, get_stby, get_spi3we, i2c_read,
      i2c_write, Bus.grant, hs, BME280_CTRL_HUM_ADDR, BME280_CTRL_MEAS_ADDR,
      BME280_CONFIG_ADDR]

set_option maxRecDepth 100000 in
theorem field_flip (g : Getter) :
    ∀ r, r < 256 → ∀ i, i < 8 → (i < g.shift ∨ g.shift + g.width ≤ i) →
      (((r ^^^ (1 <<< i)) % 256) >>> g.shift) &&& g.mask = (r >>> g.shift) &&& g.mask := by
  cases g <;> decide

/-- C11. Getters extract only the owned bits: with the register byte `r` of
the getter's register (0xF2 for `get_h_osrs`; 0xF4 for `get_p_osrs`,
`get_t_osrs`, `get_power`; 0xF5 for `get_filter`, `get_stby`, `get_spi3we`),
the getter returns `(r >> shift) AND mask` with (shift, mask) = (0, 7), (2, 7),
(5, 7), (0, 3), (2, 7), (5, 7), (0, 1) in that order, and the result is the
same when one bit of `r` outside the owned field is flipped. -/
theorem getter_owned_bits (g : Getter) (bus bus' : Bus) (i : Nat)
    (hs : bus.script = []) (hs' : bus'.script = []) (hr : bus.regs g.reg < 256)
    (hi : i < 8) (hout : i < g.shift ∨ g.shift + g.width ≤ i)
    (hflip : bus'.regs g.reg = bus.regs g.reg ^^^ (1 <<< i)) :
    (g.run bus).1 = (bus.regs g.reg >>> g.shift) &&& g.mask ∧
    (g.run bus').1 = (g.run bus).1 := by
  rw [getter_run_ok g bus hs, getter_run_ok g bus' hs', hflip, Nat.mod_eq_of_lt hr]
  exact ⟨rfl, field_flip g _ hr i hi hout⟩

/-- Witness for C11: `get_t_osrs` returns 5 on the byte 0xAB and on the byte
0xAF, which differs from it in bit 2. -/
theorem getter_owned_bits_witness :
    (busOf 0xAB).script = [] ∧ (pokeBus 0xAB 0xF4 0xAF).script = [] ∧
    (busOf 0xAB).regs Getter.t_osrs.reg < 256 ∧ 2 < 8 ∧
    (2 < Getter.t_osrs.shift ∨ Getter.t_osrs.shift + Getter.t_osrs.width ≤ 2) ∧
    (pokeBus 0xAB 0xF4 0xAF).regs Getter.t_osrs.reg
      = (busOf 0xAB).regs Getter.t_osrs.reg ^^^ (1 <<< 2) ∧
    (get_t_osrs (busOf 0xAB)).1 = 5 ∧
    (get_t_osrs (pokeBus 0xAB 0xF4 0xAF)).1 = (get_t_osrs (busOf 0xAB)).1 := by
  have h := getter_owned_bits Getter.t_osrs (busOf 0xAB) (pokeBus 0xAB 0xF4 0xAF) 2
    rfl rfl (by decide) (by decide) (by decide) (by decide)
  exact ⟨rfl, rfl, by decide, by decide, by decide, by decide, by decide, h.2⟩

/-! ## Power mode -/

set_option maxRecDepth 100000 in
theorem power_bits_eq (mode : power_t) (hm : mode ≠ power_t.force2) :
    ∀ r, r < 256 → power_bits mode r = (r &&& 0xFC) ||| mode.val := by
  cases mode
  · decide
  · decide
  · exact absurd rfl hm
  · decide

set_option maxRecDepth 100000 in
theorem or_mode_facts (m : Nat) (hm : m < 4) :
    ∀ r, r < 256 → ((r &&& 0xFC) ||| m) < 256 ∧ ((r &&& 0xFC) ||| m) / 4 = r / 4 ∧
      ((r &&& 0xFC) ||| m) &&& 0x03 = m := by
  interval_cases m <;> decide

theorem power_bits_lt (mode : power_t) (r : Nat) (hr : r < 256) : power_bits mode r < 256 := by
  cases mode
  · exact Nat.mod_lt _ (by decide)
  · exact Nat.mod_lt _ (by decide)
  · exact hr
  · exact Nat.mod_lt _ (by decide)

theorem i2c_write1_ok (a : Nat) (b : Bus) (hs : b.script = []) :
    i2c_write [a] b
      = { ret := 1, bus := { regs := b.regs, ptr := a, script := [],
                             log := Xfer.wr [a] 1 :: b.log } } := by
  simp [i2c_write, Bus.grant, hs]

theorem i2c_write2_ok (a v : Nat) (b : Bus) (hs : b.script = []) :
    i2c_write [a, v] b
      = { ret := 2, bus := { regs := fun x => if x = a then v % 256 else b.regs x, ptr := a,
                             script := [], log := Xfer.wr [a, v] 2 :: b.log } } := by
  simp [i2c_write, Bus.grant, hs]

theorem i2c_read_ok (buf : Nat → Nat) (n : Nat) (b : Bus) (hs : b.script = []) :
    i2c_read buf n b
      = { ret := n, buf := fun i => if i < n then b.regs (b.ptr + i) % 256 else buf i,
          bus := { regs := b.regs, ptr := b.ptr + n, script := [],
                   log := Xfer.rd n n :: b.log } } := by
  simp [i2c_read, Bus.grant, hs]

theorem get_power_ok (bus : Bus) (hs : bus.script = []) :
    get_power bus = ((bus.regs 0xF4 % 256) &&& 0x03,
      { regs := bus.regs, ptr := 0xF4 + 1, script := [],
        log := Xfer.rd 1 1 :: Xfer.wr [0xF4] 1 :: bus.log }) := by
  simp only [get_power, i2c_write1_ok _ _ hs, i2c_read_ok, ne_eq, not_true_eq_false,
    if_false, BME280_CTRL_MEAS_ADDR, Nat.lt_one_iff, if_true, Nat.add_zero]

theorem set_power_ok (mode : power_t) (bus : Bus) (hs : bus.script = []) :
    set_power mode bus =
      if (bus.regs 0xF4 % 256) &&& 0x03 = mode.val then
        (0, { regs := bus.regs, ptr := 0xF4 + 1, script := [],
              log := Xfer.rd 1 1 :: Xfer.wr [0xF4] 1 :: bus.log })
      else
        (if (power_bits mode (bus.regs 0xF4 % 256) % 256) &&& 0x03 = mode.val then 0 else -1,
         { regs := fun a => if a = 0xF4 then power_bits mode (bus.regs 0xF4 % 256) % 256
                            else bus.regs a,
           ptr := 0xF4 + 1, script := [],
           log := Xfer.rd 1 1 :: Xfer.wr [0xF4] 1 ::
                  Xfer.wr [0xF4, power_bits mode (bus.regs 0xF4 % 256)] 2 ::
                  Xfer.rd 1 1 :: Xfer.wr [0xF4] 1 :: bus.log }) := by
  simp only [set_power, i2c_write1_ok _ _ hs, i2c_read_ok, i2c_write2_ok, get_power_ok,
    ne_eq, not_true_eq_false, if_false, BME280_CTRL_MEAS_ADDR, Nat.lt_one_iff, if_true,
    Nat.add_zero]
  by_cases h : (bus.regs 0xF4 % 256) &&& 0x03 = mode.val
  · simp only [h, if_true]
  · simp only [h, if_false, Nat.mod_mod]
    split_ifs <;> rfl

theorem testBit_eq_of_div_4 (x r : Nat) (h : x / 4 = r / 4) (i : Nat) (hi : 2 ≤ i) :
    x.testBit i = r.testBit i := by
  obtain ⟨j, rfl⟩ : ∃ j, i = 2 + j := ⟨i - 2, by omega⟩
  have hx : x.testBit (2 + j) = (x / 4).testBit j := by
    rw [← Nat.testBit_shiftRight, Nat.shiftRight_eq_div_pow]
  have hr : r.testBit (2 + j) = (r / 4).testBit j := by
    rw [← Nat.testBit_shiftRight, Nat.shiftRight_eq_div_pow]
  rw [hx, hr, h]

/-- C12. Power-mode write: for every current byte `r` of register 0xF4 and
every mode `m` among sleep = 0, forced = 1, normal = 3 with `(r AND 3) != m`,
`set_power(m)` writes to 0xF4 exactly the byte `(r AND 0xFC) OR m`, in one
register write; bits 7..2 of that byte are those of `r` and no other register
changes. -/
theorem set_power_write (mode : power_t) (bus : Bus) (hs : bus.script = [])
    (hr : bus.regs 0xF4 < 256) (hm : mode ≠ power_t.force2)
    (hne : bus.regs 0xF4 &&& 0x03 ≠ mode.val) :
    (set_power mode bus).2.log
      = Xfer.rd 1 1 :: Xfer.wr [0xF4] 1 ::
        Xfer.wr [0xF4, (bus.regs 0xF4 &&& 0xFC) ||| mode.val] 2 ::
        Xfer.rd 1 1 :: Xfer.wr [0xF4] 1 :: bus.log ∧
    regWrites (set_power mode bus).2.log = regWrites bus.log + 1 ∧
    (set_power mode bus).2.regs 0xF4 = (bus.regs 0xF4 &&& 0xFC) ||| mode.val ∧
    (∀ a, a ≠ 0xF4 → (set_power mode bus).2.regs a = bus.regs a) ∧
    (∀ i, 2 ≤ i →
      ((bus.regs 0xF4 &&& 0xFC) ||| mode.val).testBit i = (bus.regs 0xF4).testBit i) := by
  have hr' : bus.regs 0xF4 % 256 = bus.regs 0xF4 := Nat.mod_eq_of_lt hr
  have hv : mode.val < 4 := by cases mode <;> decide
  obtain ⟨hlt, hdiv, -⟩ := or_mode_facts mode.val hv _ hr
  rw [set_power_ok mode bus hs, hr', if_neg hne, power_bits_eq mode hm _ hr]
  refine ⟨rfl, ?_, ?_, ?_, ?_⟩
  · simp [regWrites]
    omega
  · simp [Nat.mod_eq_of_lt hlt]
  · intro a ha
    simp [ha]
  · intro i hi
    exact testBit_eq_of_div_4 _ _ hdiv i hi

/-- Witness for C12: from the byte 0xAB (mode bits 3), `set_power(forced)`
writes 0xA9. -/
theorem set_power_write_witness :
    (busOf 0xAB).script = [] ∧ (busOf 0xAB).regs 0xF4 < 256 ∧
    power_t.forced ≠ power_t.force2 ∧
    (busOf 0xAB).regs 0xF4 &&& 0x03 ≠ power_t.forced.val ∧
    (set_power power_t.forced (busOf 0xAB)).2.log
      = [Xfer.rd 1 1, Xfer.wr [0xF4] 1, Xfer.wr [0xF4, 0xA9] 2, Xfer.rd 1 1,
         Xfer.wr [0xF4] 1] ∧
    (set_power power_t.forced (busOf 0xAB)).2.regs 0xF4 = 0xA9 := by
  have h := set_power_write power_t.forced (busOf 0xAB) rfl (by decide) (by decide)
    (by decide)
  exact ⟨rfl, by decide, by decide, by decide, h.1, h.2.2.1⟩

/-- C13. Power-mode no-op: for every byte `r` of register 0xF4 and every mode
`m` with `(r AND 3) = m`, `set_power(m)` returns 0 and writes no register:
every register, 0xF4 included, holds what it held before. -/
theorem set_power_noop (mode : power_t) (bus : Bus) (hs : bus.script = [])
    (hr : bus.regs 0xF4 < 256) (heq : bus.regs 0xF4 &&& 0x03 = mode.val) :
    (set_power mode bus).1 = 0 ∧
    (set_power mode bus).2.regs = bus.regs ∧
    regWrites (set_power mode bus).2.log = regWrites bus.log := by
  have hr' : bus.regs 0xF4 % 256 = bus.regs 0xF4 := Nat.mod_eq_of_lt hr
  rw [set_power_ok mode bus hs, hr', if_pos heq]
  exact ⟨rfl, rfl, by simp [regWrites]⟩

/-- Witness for C13: `set_power(normal)` on the byte 0xAB, whose mode bits
are 3. -/
theorem set_power_noop_witness :
    (busOf 0xAB).script = [] ∧ (busOf 0xAB).regs 0xF4 < 256 ∧
    (busOf 0xAB).regs 0xF4 &&& 0x03 = power_t.normal.val ∧
    (set_power power_t.normal (busOf 0xAB)).1 = 0 ∧
    (set_power power_t.normal (busOf 0xAB)).2.regs = (busOf 0xAB).regs ∧
    regWrites (set_power power_t.normal (busOf 0xAB)).2.log = regWrites (busOf 0xAB).log :=
  ⟨rfl, by decide, by decide,
    set_power_noop power_t.normal (busOf 0xAB) rfl (by decide) (by decide)⟩

theorem regWrites_write1 (a : Nat) (b : Bus) :
    regWrites (i2c_write [a] b).bus.log = regWrites b.log := by
  have hg : ¬ 2 ≤ b.grant 1 := by
    have := b.grant_le 1
    omega
  simp [i2c_write, regWrites, hg]

theorem regWrites_read (buf : Nat → Nat) (n : Nat) (b : Bus) :
    regWrites (i2c_read buf n b).bus.log = regWrites b.log := by
  simp [i2c_read, regWrites]

theorem regWrites_write2_short (a v : Nat) (b : Bus) (h : (i2c_write [a, v] b).ret ≠ 2) :
    regWrites (i2c_write [a, v] b).bus.log = regWrites b.log := by
  have hg : ¬ 2 ≤ b.grant 2 := by
    have h1 := b.grant_le 2
    have h2 : b.grant 2 ≠ 2 := by simpa [i2c_write] using h
    omega
  simp [i2c_write, regWrites, hg]

theorem get_power_script_ok (b : Bus) (hs : b.script = []) :
    (get_power b).1 = (b.regs 0xF4 % 256) &&& 0x03 := by
  rw [get_power_ok b hs]

/-- C14. Power-mode confirmation: whenever `set_power(m)` has written a
register, its result is decided by the `get_power` call on the bus as that
write left it: it returns 0 if and only if `get_power` returns `m`, and -1 if
and only if `get_power` returns something else; when the transfers of that
`get_power` are complete, what it returns is the two mode bits of 0xF4. -/
theorem set_power_confirmation (mode : power_t) (bus : Bus)
    (hw : regWrites (set_power mode bus).2.log ≠ regWrites bus.log) :
    let r := i2c_read (fun _ => 0) 1 (i2c_write [0xF4] bus).bus
    let written := i2c_write [0xF4, power_bits mode (r.buf 0)] r.bus
    ((set_power mode bus).1 = 0 ↔ (get_power written.bus).1 = mode.val) ∧
    ((set_power mode bus).1 = -1 ↔ (get_power written.bus).1 ≠ mode.val) ∧
    (written.bus.script = [] →
      (get_power written.bus).1 = (written.bus.regs 0xF4 % 256) &&& 0x03) := by
  intro r written
  refine ⟨?_, ?_, fun h => get_power_script_ok _ h⟩ <;>
  · revert hw
    unfold set_power
    simp only [BME280_CTRL_MEAS_ADDR]
    split_ifs with h1 h2 h3 h4 h5
    · intro hw
      exact (hw (regWrites_write1 _ _)).elim
    · intro hw
      exact (hw ((regWrites_read (fun _ => 0) 1 _).trans (regWrites_write1 _ _))).elim
    · intro hw
      exact (hw ((regWrites_read (fun _ => 0) 1 _).trans (regWrites_write1 _ _))).elim
    · intro hw
      exact (hw (((regWrites_write2_short _ _ _ h4).trans
        (regWrites_read (fun _ => 0) 1 _)).trans (regWrites_write1 _ _))).elim
    · intro _
      simp [r, written, h5]
    · intro _
      simp [r, written, h5]

/-- Witness for C14: `set_power(force2)` on a sensor holding 0 writes the byte
0 back, `get_power` then returns 0, not 2, and the call returns -1. -/
theorem set_power_confirmation_witness :
    regWrites (set_power power_t.force2 (busOf 0)).2.log ≠ regWrites (busOf 0).log ∧
    (set_power power_t.force2 (busOf 0)).1 = -1 ∧
    ((set_power power_t.force2 (busOf 0)).1 = -1 ↔
      (get_power (i2c_write [0xF4, power_bits power_t.force2
          ((i2c_read (fun _ => 0) 1 (i2c_write [0xF4] (busOf 0)).bus).buf 0)]
        (i2c_read (fun _ => 0) 1 (i2c_write [0xF4] (busOf 0)).bus).bus).bus).1
        ≠ power_t.force2.val) :=
  ⟨by decide, by decide, (set_power_confirmation power_t.force2 (busOf 0) (by decide)).2.1⟩

/-! ## Raw readings and compensation -/

set_option maxRecDepth 100000 in
theorem and_F0 : ∀ x, x < 256 → x &&& 0xF0 = x / 16 * 16 := by
  decide

theorem get_data_adc_ok (bus : Bus) (hs : bus.script = []) :
    (get_data_adc bus).1 =
      { adc_p := (((bus.regs 0xF7 % 256 * 65536 + (bus.regs 0xF8 % 256 * 256
                    + (bus.regs 0xF9 % 256) / 16 * 16)) / 16 : Nat) : Int)
        adc_t := (((bus.regs 0xFA % 256 * 65536 + (bus.regs 0xFB % 256 * 256
                    + (bus.regs 0xFC % 256) / 16 * 16)) / 16 : Nat) : Int)
        adc_h := ((bus.regs 0xFD % 256 * 256 + bus.regs 0xFE % 256 : Nat) : Int) } := by
  have h9 := and_F0 (bus.regs 0xF9 % 256) (Nat.mod_lt _ (by decide))
  have hC := and_F0 (bus.regs 0xFC % 256) (Nat.mod_lt _ (by decide))
  simp only [get_data_adc, select_read_buf, hs, BME280_PRES_DATA_MSB_ADDR]
  simp only [Nat.reduceAdd, Nat.reduceLT, if_true, Nat.add_zero, h9, hC]

/-- C18. Raw reading assembly: for the 8 data bytes `b0..b7` (each 0..255) of
one burst from 0xF7, `get_data` forms `adc_p = b0*4096 + b1*16 + (b2 >> 4)`,
`adc_t = b3*4096 + b4*16 + (b5 >> 4)` and `adc_h = b6*256 + b7`; `adc_p` and
`adc_t` lie in 0..2^20-1, `adc_h` in 0..2^16-1, and two sensors that differ
only in the low four bits of `b2` and `b5` give the same three readings. -/
theorem get_data_adc_assembly (bus bus' : Bus) (hs : bus.script = [])
    (hs' : bus'.script = []) (hb : ∀ a, bus.regs a < 256) (hb' : ∀ a, bus'.regs a < 256)
    (hsame : ∀ a, a ≠ 0xF9 → a ≠ 0xFC → bus'.regs a = bus.regs a)
    (h2 : bus'.regs 0xF9 >>> 4 = bus.regs 0xF9 >>> 4)
    (h5 : bus'.regs 0xFC >>> 4 = bus.regs 0xFC >>> 4) :
    ((get_data_adc bus).1.adc_p
        = ((bus.regs 0xF7 * 4096 + bus.regs 0xF8 * 16 + (bus.regs 0xF9 >>> 4) : Nat) : Int)
      ∧ 0 ≤ (get_data_adc bus).1.adc_p ∧ (get_data_adc bus).1.adc_p < 2 ^ 20) ∧
    ((get_data_adc bus).1.adc_t
        = ((bus.regs 0xFA * 4096 + bus.regs 0xFB * 16 + (bus.regs 0xFC >>> 4) : Nat) : Int)
      ∧ 0 ≤ (get_data_adc bus).1.adc_t ∧ (get_data_adc bus).1.adc_t < 2 ^ 20) ∧
    ((get_data_adc bus).1.adc_h = ((bus.regs 0xFD * 256 + bus.regs 0xFE : Nat) : Int)
      ∧ 0 ≤ (get_data_adc bus).1.adc_h ∧ (get_data_adc bus).1.adc_h < 2 ^ 16) ∧
    (get_data_adc bus').1 = (get_data_adc bus).1 := by
  have hshr : ∀ x : Nat, x >>> 4 = x / 16 := fun x => Nat.shiftRight_eq_div_pow x 4
  have e7 := hsame 0xF7 (by decide) (by decide)
  have e8 := hsame 0xF8 (by decide) (by decide)
  have eA := hsame 0xFA (by decide) (by decide)
  have eB := hsame 0xFB (by decide) (by decide)
  have eD := hsame 0xFD (by decide) (by decide)
  have eE := hsame 0xFE (by decide) (by decide)
  have b7 := hb 0xF7
  have b8 := hb 0xF8
  have b9 := hb 0xF9
  have bA := hb 0xFA
  have bB := hb 0xFB
  have bC := hb 0xFC
  have bD := hb 0xFD
  have bE := hb 0xFE
  have c9 := hb' 0xF9
  have cC := hb' 0xFC
  rw [hshr, hshr] at h2 h5
  rw [get_data_adc_ok bus hs, get_data_adc_ok bus' hs']
  simp only [hshr, e7, e8, eA, eB, eD, eE, Nat.mod_eq_of_lt b7, Nat.mod_eq_of_lt b8,
    Nat.mod_eq_of_lt b9, Nat.mod_eq_of_lt bA, Nat.mod_eq_of_lt bB, Nat.mod_eq_of_lt bC,
    Nat.mod_eq_of_lt bD, Nat.mod_eq_of_lt bE, Nat.mod_eq_of_lt c9, Nat.mod_eq_of_lt cC,
    h2, h5]
  refine ⟨⟨?_, ?_, ?_⟩, ⟨?_, ?_, ?_⟩, ⟨?_, ?_, ?_⟩, ?_⟩
  all_goals first | trivial | omega

/-- Witness for C18: the bytes 0xF7..0xFE of `addrBus`, against a sensor
holding 0xF0 at 0xF9 and at 0xFC instead of 0xF9 and 0xFC. -/
theorem get_data_adc_assembly_witness :
    addrBus.script = [] ∧ nibbleBus.script = [] ∧
    (∀ a, addrBus.regs a < 256) ∧ (∀ a, nibbleBus.regs a < 256) ∧
    (∀ a, a ≠ 0xF9 → a ≠ 0xFC → nibbleBus.regs a = addrBus.regs a) ∧
    nibbleBus.regs 0xF9 >>> 4 = addrBus.regs 0xF9 >>> 4 ∧
    nibbleBus.regs 0xFC >>> 4 = addrBus.regs 0xFC >>> 4 ∧
    (get_data_adc addrBus).1.adc_p = 1015695 ∧
    (get_data_adc addrBus).1.adc_t = 1028031 ∧
    (get_data_adc addrBus).1.adc_h = 65022 ∧
    (get_data_adc nibbleBus).1 = (get_data_adc addrBus).1 := by
  have hb : ∀ a, addrBus.regs a < 256 := fun a => Nat.mod_lt a (by decide)
  have hb' : ∀ a, nibbleBus.regs a < 256 := fun a => by
    simp only [nibbleBus]
    split_ifs
    · decide
    · decide
    · exact Nat.mod_lt a (by decide)
  have hsame : ∀ a, a ≠ 0xF9 → a ≠ 0xFC → nibbleBus.regs a = addrBus.regs a :=
    fun a h1 h2 => by simp [nibbleBus, addrBus, h1, h2]
  have h := get_data_adc_assembly addrBus nibbleBus rfl rfl hb hb' hsame (by decide)
    (by decide)
  exact ⟨rfl, rfl, hb, hb', hsame, by decide, by decide, by decide, by decide, by decide,
    h.2.2.2⟩

/-! ## Compensation in exact arithmetic -/

theorem c_long_eq (x : ℚ) : c_long x = if 0 ≤ x then ⌊x⌋ else ⌈x⌉ := by
  unfold c_long
  split_ifs with h
  · rw [Rat.floor_def]
    exact Int.tdiv_eq_ediv (Rat.num_nonneg.mpr h) (Int.ofNat_nonneg _)
  · have hneg : 0 ≤ (-x).num := Rat.num_nonneg.mpr (by linarith)
    have h1 : ⌈x⌉ = -⌊-x⌋ := by rw [Int.floor_neg]; simp
    rw [h1, Rat.floor_def, Rat.neg_den, ← Int.tdiv_eq_ediv hneg (Int.ofNat_nonneg _),
      Rat.neg_num, Int.neg_tdiv, neg_neg]

theorem c_long_eq_floor_iff (x : ℚ) : c_long x = ⌊x⌋ ↔ (0 ≤ x ∨ (⌊x⌋ : ℚ) = x) := by
  rw [c_long_eq]
  split_ifs with h
  · simp [h]
  · constructor
    · intro hc
      right
      have h1 := Int.floor_le x
      have h2 := Int.le_ceil x
      rw [hc] at h2
      exact le_antisymm h1 h2
    · rintro (h0 | hi)
      · exact absurd h0 h
      · rw [← hi, Int.ceil_intCast, Int.floor_intCast]

/-- C15. Humidity clamp: for every calibration set and every sensor state, in
exact arithmetic, the `humi_p` of `get_data` lies in [0, 100]; it is 100 when
the unclamped expression exceeds 100, 0 when that expression is below 0, and
the expression itself otherwise. -/
theorem get_data_humidity_clamp (bmec : bmecal) (bus : Bus) :
    0 ≤ (get_data bmec bus).1.humi_p ∧ (get_data bmec bus).1.humi_p ≤ 100 ∧
    (get_data bmec bus).1.humi_p =
      (if 100 < humidity_expr (get_data_adc bus).1.adc_h
                  (t_fine (get_data_adc bus).1.adc_t bmec) bmec then 100
       else if humidity_expr (get_data_adc bus).1.adc_h
                  (t_fine (get_data_adc bus).1.adc_t bmec) bmec < 0 then 0
       else humidity_expr (get_data_adc bus).1.adc_h
                  (t_fine (get_data_adc bus).1.adc_t bmec) bmec) := by
  simp only [get_data, gt_iff_lt]
  refine ⟨?_, ?_, trivial⟩
  · split_ifs with h1 h2
    · norm_num
    · exact le_refl _
    · exact le_of_not_lt h2
  · split_ifs with h1 h2
    · exact le_refl _
    · norm_num
    · exact le_of_not_lt h1

/-- C16. Temperature formula: in exact arithmetic, with `adc_t` the raw
temperature reading, `get_data` returns
`temp_c = (var1 + var2)/5120` for `var1 = (adc_t/16384 - T1/1024) * T2` and
`var2 = (adc_t/131072 - T1/8192)^2 * T3`, and `temp_f = temp_c * 1.8 + 32`;
two calls whose sensors agree on the three temperature data bytes and whose
calibration sets agree on T1, T2, T3 return the same `temp_c` and `temp_f`,
whatever the pressure and humidity bytes and coefficients are. -/
theorem get_data_temperature (bmec bmec' : bmecal) (bus bus' : Bus)
    (hs : bus.script = []) (hs' : bus'.script = [])
    (hA : bus'.regs 0xFA = bus.regs 0xFA) (hB : bus'.regs 0xFB = bus.regs 0xFB)
    (hC : bus'.regs 0xFC = bus.regs 0xFC)
    (h1 : bmec'.dig_T1 = bmec.dig_T1) (h2 : bmec'.dig_T2 = bmec.dig_T2)
    (h3 : bmec'.dig_T3 = bmec.dig_T3) :
    (get_data bmec bus).1.temp_c
      = ((((get_data_adc bus).1.adc_t : ℚ) / 16384 - (bmec.dig_T1 : ℚ) / 1024)
            * (bmec.dig_T2 : ℚ)
          + (((get_data_adc bus).1.adc_t : ℚ) / 131072 - (bmec.dig_T1 : ℚ) / 8192) ^ 2
            * (bmec.dig_T3 : ℚ)) / 5120 ∧
    (get_data bmec bus).1.temp_f = (get_data bmec bus).1.temp_c * 1.8 + 32 ∧
    (get_data bmec' bus').1.temp_c = (get_data bmec bus).1.temp_c ∧
    (get_data bmec' bus').1.temp_f = (get_data bmec bus).1.temp_f := by
  have hadc : (get_data_adc bus').1.adc_t = (get_data_adc bus).1.adc_t := by
    rw [get_data_adc_ok bus hs, get_data_adc_ok bus' hs', hA, hB, hC]
  simp only [get_data, temp_var1, temp_var2, hadc, h1, h2, h3]
  refine ⟨by ring, trivial, trivial, trivial⟩

/-- Witness for C16: two sensors with the same temperature bytes that differ
in every pressure and humidity byte, and two calibration sets that differ in
humidity coefficients. -/
theorem get_data_temperature_witness :
    (tempBus 0).script = [] ∧ (tempBus 0x5A).script = [] ∧
    (tempBus 0x5A).regs 0xFA = (tempBus 0).regs 0xFA ∧
    (tempBus 0x5A).regs 0xFB = (tempBus 0).regs 0xFB ∧
    (tempBus 0x5A).regs 0xFC = (tempBus 0).regs 0xFC ∧
    (calOf 1 1 0 7 8 9).dig_T1 = (calOf 1 1 0 0 0 0).dig_T1 ∧
    (calOf 1 1 0 7 8 9).dig_T2 = (calOf 1 1 0 0 0 0).dig_T2 ∧
    (calOf 1 1 0 7 8 9).dig_T3 = (calOf 1 1 0 0 0 0).dig_T3 ∧
    (get_data (calOf 1 1 0 7 8 9) (tempBus 0x5A)).1.temp_c
      = (get_data (calOf 1 1 0 0 0 0) (tempBus 0)).1.temp_c ∧
    (get_data (calOf 1 1 0 7 8 9) (tempBus 0x5A)).1.temp_f
      = (get_data (calOf 1 1 0 0 0 0) (tempBus 0)).1.temp_f := by
  have h := get_data_temperature (calOf 1 1 0 0 0 0) (calOf 1 1 0 7 8 9) (tempBus 0)
    (tempBus 0x5A) rfl rfl rfl rfl rfl rfl rfl rfl
  exact ⟨rfl, rfl, rfl, rfl, rfl, rfl, rfl, rfl, h.2.2.1, h.2.2.2⟩

theorem get_data_adc_zero : (get_data_adc (busOf 0)).1 = { adc_p := 0, adc_t := 0, adc_h := 0 } := by
  rw [get_data_adc_ok (busOf 0) rfl]
  simp [busOf]

/-- Both saturations of the humidity clamp are reached, and a value inside
[0, 100] passes unchanged: with raw readings 0, `dig_H2 = 16384` and
`dig_H4 = -1024`, `1024`, `-1` the unclamped expression is 16384, -16384, 16. -/
theorem get_data_humidity_saturates :
    humidity_expr 0 (t_fine 0 (calOf 0 0 0 0 16384 (-1024))) (calOf 0 0 0 0 16384 (-1024))
      = 16384 ∧
    (get_data (calOf 0 0 0 0 16384 (-1024)) (busOf 0)).1.humi_p = 100 ∧
    humidity_expr 0 (t_fine 0 (calOf 0 0 0 0 16384 1024)) (calOf 0 0 0 0 16384 1024)
      = -16384 ∧
    (get_data (calOf 0 0 0 0 16384 1024) (busOf 0)).1.humi_p = 0 ∧
    (get_data (calOf 0 0 0 0 16384 (-1)) (busOf 0)).1.humi_p = 16 := by
  have ht : ∀ h4 : Int, t_fine 0 (calOf 0 0 0 0 16384 h4) = 0 := fun h4 => by
    simp [t_fine, temp_var1, temp_var2, calOf, c_long]
  simp only [get_data, get_data_adc_zero, ht, humidity_expr, calOf]
  norm_num


/-! ## Humidity oversampling is written without a read -/

/-- C19 (the claim fails as stated). On a sensor whose register 0xF2 holds
0xF8, `set_h_osrs("1")` issues one write of the byte 1 and no read; the
read-modify-write value `(0xF8 AND 0xF8) OR 1` would be 0xF9. -/
theorem set_h_osrs_not_read_modify_write :
    (busOf 0xF8).regs 0xF2 = 0xF8 ∧
    (set_h_osrs "1" (busOf 0xF8)).2.log = [Xfer.wr [0xF2, 1] 2] ∧
    (set_h_osrs "1" (busOf 0xF8)).2.regs 0xF2 = 1 ∧
    (set_h_osrs "1" (busOf 0xF8)).2.regs 0xF2
      ≠ ((busOf 0xF8).regs 0xF2 &&& 0xF8) ||| 1 := by
  decide

set_option maxRecDepth 100000 in
theorem or_code_facts :
    ∀ c, c < 6 → ∀ r, r < 256 → (c = (r &&& 0xF8) ||| c ↔ r &&& 0xF8 = 0) := by
  decide

/-- C19, amended. For every current byte `r` of register 0xF2 and every
recognized name `v` with code `c`, `set_h_osrs(v)` issues a single write of
the byte `c` to 0xF2 and no read: bits 2..0 of the register become `c` and
bits 7..3 are written as 0.  The byte equals `(r AND 0xF8) OR c` exactly when
bits 7..3 of `r` are 0. -/
theorem set_h_osrs_writes_code (bus : Bus) (p : String × Nat) (hs : bus.script = [])
    (hr : bus.regs 0xF2 < 256)
    (hp : p ∈ [("skip", 0), ("1", 1), ("2", 2), ("4", 3), ("8", 4), ("16", 5)]) :
    (set_h_osrs p.1 bus).2.log = Xfer.wr [0xF2, p.2] 2 :: bus.log ∧
    (set_h_osrs p.1 bus).2.regs 0xF2 = p.2 ∧
    (∀ i, 3 ≤ i → ((set_h_osrs p.1 bus).2.regs 0xF2).testBit i = false) ∧
    (p.2 = (bus.regs 0xF2 &&& 0xF8) ||| p.2 ↔ bus.regs 0xF2 &&& 0xF8 = 0) := by
  have hc : p.2 < 6 ∧ h_osrs_code p.1 = some p.2 := by
    simp only [List.mem_cons, List.mem_singleton, List.not_mem_nil, or_false] at hp
    rcases hp with rfl | rfl | rfl | rfl | rfl | rfl <;> exact ⟨by decide, by decide⟩
  have hreg : (set_h_osrs p.1 bus).2.regs 0xF2 = p.2 := by
    rw [set_h_osrs_ok _ bus hs, hc.2]
    simp only [if_true]
    exact Nat.mod_eq_of_lt (by omega)
  refine ⟨?_, hreg, ?_, or_code_facts p.2 hc.1 _ hr⟩
  · rw [set_h_osrs_ok _ bus hs, hc.2]
  · intro i hi
    rw [hreg]
    apply Nat.testBit_eq_false_of_lt
    calc p.2 < 2 ^ 3 := by omega
      _ ≤ 2 ^ i := Nat.pow_le_pow_right (by decide) hi

/-- Witness for C19, amended: `set_h_osrs("16")` on a sensor holding 0xF8. -/
theorem set_h_osrs_writes_code_witness :
    (busOf 0xF8).script = [] ∧ (busOf 0xF8).regs 0xF2 < 256 ∧
    ("16", 5) ∈ [("skip", 0), ("1", 1), ("2", 2), ("4", 3), ("8", 4), ("16", 5)] ∧
    (set_h_osrs "16" (busOf 0xF8)).2.log = Xfer.wr [0xF2, 5] 2 :: (busOf 0xF8).log ∧
    (set_h_osrs "16" (busOf 0xF8)).2.regs 0xF2 = 5 := by
  have h := set_h_osrs_writes_code (busOf 0xF8) ("16", 5) rfl (by decide) (by decide)
  exact ⟨rfl, by decide, by decide, h.1, h.2.1⟩

/-! ## Calibration after a short read -/

/-- C20 (the code departs from the claim). On `shortBus` the 24-byte burst
read of `get_calib` moves 10 bytes.  `get_calib` carries on with the remaining
transfers and fills the struct: `dig_T1 .. dig_P2` come from the 10 bytes that
arrived, `dig_P3 .. dig_P9` from the zeroes left in the buffer. -/
theorem get_calib_short_read_delivers :
    (get_calib shortBus).2.log
      = [Xfer.rd 7 7, Xfer.wr [0xE1] 1, Xfer.rd 1 1, Xfer.wr [0xA1] 1,
         Xfer.rd 24 10, Xfer.wr [0x88] 1] ∧
    (get_calib shortBus).1.dig_T1 = 35208 ∧
    (get_calib shortBus).1.dig_P2 = -28272 ∧
    (get_calib shortBus).1.dig_P3 = 0 ∧
    (get_calib shortBus).1.dig_P9 = 0 ∧
    (get_calib addrBus).1.dig_P3 = -27758 ∧
    (get_calib shortBus).1.dig_H1 = 161 := by
  decide

/-! ## Setters after a short transfer -/

/-- C21 (the code departs from the claim). On `readFailBus` the 1-byte read of
the current register moves no byte.  `set_t_osrs`, `set_p_osrs`, `set_filter`
and `set_stby` carry on with `regdata = 0`, write the byte computed from it and
return 0, replacing the 0xFF the register held; the same happens on
`writeFailBus`, where the address write moves no byte. -/
theorem setter_short_read_still_writes :
    readFailBus.regs 0xF4 = 0xFF ∧ readFailBus.regs 0xF5 = 0xFF ∧
    (set_t_osrs "1" readFailBus).1 = 0 ∧
    (set_t_osrs "1" readFailBus).2.log
      = [Xfer.wr [0xF4, 0x20] 2, Xfer.rd 1 0, Xfer.wr [0xF4] 1] ∧
    (set_t_osrs "1" readFailBus).2.regs 0xF4 = 0x20 ∧
    (set_p_osrs "1" readFailBus).1 = 0 ∧
    (set_p_osrs "1" readFailBus).2.regs 0xF4 = 0x04 ∧
    (set_filter "2" readFailBus).1 = 0 ∧
    (set_filter "2" readFailBus).2.regs 0xF5 = 0x04 ∧
    (set_stby "62.5" readFailBus).1 = 0 ∧
    (set_stby "62.5" readFailBus).2.regs 0xF5 = 0x20 ∧
    (set_t_osrs "1" writeFailBus).1 = 0 ∧
    (set_t_osrs "1" writeFailBus).2.log
      = [Xfer.wr [0xF4, 0x2B] 2, Xfer.rd 1 1, Xfer.wr [0xF4] 0] := by
  decide

/-! ## Results and transactions of `set_power` -/

/-- C22 (the claim fails as stated). `set_power(force2)` on a sensor holding 0
completes its register write and its confirmation read, finds mode bits 0
instead of 2 and returns -1; `set_power(normal)` on `writeFailBus`, whose
address write moves no byte, returns -1 as well. -/
theorem set_power_failures_same_result :
    (set_power power_t.force2 (busOf 0)).2.log
      = [Xfer.rd 1 1, Xfer.wr [0xF4] 1, Xfer.wr [0xF4, 0] 2, Xfer.rd 1 1,
         Xfer.wr [0xF4] 1] ∧
    (get_power (set_power power_t.force2 (busOf 0)).2).1 = 0 ∧
    (set_power power_t.force2 (busOf 0)).1 = -1 ∧
    (set_power power_t.normal writeFailBus).2.log = [Xfer.wr [0xF4] 0] ∧
    (set_power power_t.normal writeFailBus).1 = -1 ∧
    (set_power power_t.force2 (busOf 0)).1 = (set_power power_t.normal writeFailBus).1 := by
  decide

theorem set_power_result (mode : power_t) (bus : Bus) :
    (set_power mode bus).1 = 0 ∨ (set_power mode bus).1 = -1 := by
  unfold set_power
  simp only []
  split_ifs <;> simp

theorem shortXfers_write (bytes : List Nat) (b : Bus) :
    shortXfers (i2c_write bytes b).bus.log
      = (if (i2c_write bytes b).ret < bytes.length then 1 else 0) + shortXfers b.log := rfl

theorem shortXfers_read (buf : Nat → Nat) (n : Nat) (b : Bus) :
    shortXfers (i2c_read buf n b).bus.log
      = (if (i2c_read buf n b).ret < n then 1 else 0) + shortXfers b.log := rfl

theorem get_power_no_short (bus : Bus) (h : (get_power bus).1 ≠ 255) :
    shortXfers (get_power bus).2.log = shortXfers bus.log := by
  unfold get_power at h ⊢
  simp only [] at h ⊢
  split_ifs at h ⊢ with h1 h2
  · exact absurd rfl h
  · exact absurd rfl h
  · have e1 := not_not.mp h1
    have e2 := not_not.mp h2
    rw [shortXfers_read, shortXfers_write, e1, e2]
    simp

theorem power_t_val_ne_255 (mode : power_t) : mode.val ≠ 255 := by
  cases mode <;> decide

theorem set_power_zero_no_short (mode : power_t) (bus : Bus) (h : (set_power mode bus).1 = 0) :
    shortXfers (set_power mode bus).2.log = shortXfers bus.log := by
  unfold set_power at h ⊢
  simp only [] at h ⊢
  split_ifs at h ⊢ with h1 h2 h3 h4 h5
  · simp at h
  · simp at h
  · have e1 := not_not.mp h1
    have e2 := not_not.mp h2
    rw [shortXfers_read, shortXfers_write, e1, e2]
    simp
  · simp at h
  · have e1 := not_not.mp h1
    have e2 := not_not.mp h2
    have e4 := not_not.mp h4
    rw [get_power_no_short _ (by rw [h5]; exact power_t_val_ne_255 mode), shortXfers_write,
      shortXfers_read, shortXfers_write, e1, e2, e4]
    simp
  · simp at h

/-- C22, amended. The result of `set_power` does not tell a hardware mismatch
from a transport failure.  A call during which a bus write or read was short
returns -1.  A call on a bus whose transfers are all complete, after which the
mode bits of register 0xF4 differ from the requested mode, has completed the
address write, the read, the register write and the confirmation read, none
of them short, with one register stored, and returns -1 as well.  So the two
results are equal, and 0 and -1 are the only results of `set_power`. -/
theorem set_power_short_or_mismatch (mode mode' : power_t) (bus bus' : Bus)
    (hshort : shortXfers (set_power mode bus).2.log ≠ shortXfers bus.log)
    (hs : bus'.script = [])
    (hmis : ((set_power mode' bus').2.regs 0xF4 % 256) &&& 0x03 ≠ mode'.val) :
    (set_power mode bus).1 = -1 ∧
    (set_power mode' bus').1 = -1 ∧
    (set_power mode' bus').2.log
      = Xfer.rd 1 1 :: Xfer.wr [0xF4] 1 ::
        Xfer.wr [0xF4, power_bits mode' (bus'.regs 0xF4 % 256)] 2 ::
        Xfer.rd 1 1 :: Xfer.wr [0xF4] 1 :: bus'.log ∧
    shortXfers (set_power mode' bus').2.log = shortXfers bus'.log ∧
    regWrites (set_power mode' bus').2.log = regWrites bus'.log + 1 ∧
    (set_power mode bus).1 = (set_power mode' bus').1 ∧
    (∀ m b, (set_power m b).1 = 0 ∨ (set_power m b).1 = -1) := by
  have e : (set_power mode bus).1 = -1 := by
    rcases set_power_result mode bus with h | h
    · exact absurd (set_power_zero_no_short mode bus h) hshort
    · exact h
  have e' : (set_power mode' bus').1 = -1 ∧
      (set_power mode' bus').2.log
        = Xfer.rd 1 1 :: Xfer.wr [0xF4] 1 ::
          Xfer.wr [0xF4, power_bits mode' (bus'.regs 0xF4 % 256)] 2 ::
          Xfer.rd 1 1 :: Xfer.wr [0xF4] 1 :: bus'.log := by
    rw [set_power_ok mode' bus' hs] at hmis ⊢
    by_cases h : (bus'.regs 0xF4 % 256) &&& 0x03 = mode'.val
    · rw [if_pos h] at hmis
      exact absurd h hmis
    · rw [if_neg h] at hmis ⊢
      simp only [if_true, Nat.mod_mod] at hmis
      rw [if_neg hmis]
      exact ⟨rfl, rfl⟩
  refine ⟨e, e'.1, e'.2, ?_, ?_, e.trans e'.1.symm, set_power_result⟩
  · rw [e'.2]
    simp [shortXfers]
  · rw [e'.2]
    simp [regWrites]
    omega

/-- Witness for C22, amended: a transport failure (`normal` on `writeFailBus`,
whose address write moves no byte) and a mismatch (`force2` on a sensor
holding 0, all transfers complete). -/
theorem set_power_short_or_mismatch_witness :
    shortXfers (set_power power_t.normal writeFailBus).2.log ≠ shortXfers writeFailBus.log ∧
    (busOf 0).script = [] ∧
    ((set_power power_t.force2 (busOf 0)).2.regs 0xF4 % 256) &&& 0x03 ≠ power_t.force2.val ∧
    (set_power power_t.normal writeFailBus).1 = -1 ∧
    (set_power power_t.force2 (busOf 0)).1 = -1 ∧
    shortXfers (set_power power_t.force2 (busOf 0)).2.log = shortXfers (busOf 0).log ∧
    regWrites (set_power power_t.force2 (busOf 0)).2.log = regWrites (busOf 0).log + 1 ∧
    (set_power power_t.normal writeFailBus).1 = (set_power power_t.force2 (busOf 0)).1 := by
  have h := set_power_short_or_mismatch power_t.normal power_t.force2 writeFailBus (busOf 0)
    (by decide) rfl (by decide)
  exact ⟨by decide, rfl, by decide, h.1, h.2.1, h.2.2.2.1, h.2.2.2.2.1, h.2.2.2.2.2.1⟩

/-- C23 (the claim fails as stated). `set_power(normal)` on a sensor whose
register 0xF4 holds 0xAB, mode bits 3, issues one write operation on the bus
handle, the address byte 0xF4, before it can read the mode. -/
theorem set_power_noop_issues_a_write :
    (busOf 0xAB).regs 0xF4 &&& 0x03 = power_t.normal.val ∧
    (set_power power_t.normal (busOf 0xAB)).2.log = [Xfer.rd 1 1, Xfer.wr [0xF4] 1] ∧
    busWrites (set_power power_t.normal (busOf 0xAB)).2.log = 1 ∧
    busWrites (set_power power_t.normal (busOf 0xAB)).2.log ≠ 0 := by
  decide

/-- C23, amended. Setting a power mode already in effect stores no register:
for every byte `r` of register 0xF4 and mode `m` with `(r AND 3) = m`, the
transactions of `set_power(m)` are one 1-byte write of the register address
0xF4 and one 1-byte read; the count of write operations on the bus handle is
1 and the count of register-storing writes is 0. -/
theorem set_power_noop_transactions (mode : power_t) (bus : Bus) (hs : bus.script = [])
    (hr : bus.regs 0xF4 < 256) (heq : bus.regs 0xF4 &&& 0x03 = mode.val) :
    (set_power mode bus).2.log = Xfer.rd 1 1 :: Xfer.wr [0xF4] 1 :: bus.log ∧
    busWrites (set_power mode bus).2.log = busWrites bus.log + 1 ∧
    regWrites (set_power mode bus).2.log = regWrites bus.log := by
  have hr' : bus.regs 0xF4 % 256 = bus.regs 0xF4 := Nat.mod_eq_of_lt hr
  rw [set_power_ok mode bus hs, hr', if_pos heq]
  refine ⟨rfl, ?_, ?_⟩
  · simp [busWrites]
    omega
  · simp [regWrites]

/-- Witness for C23, amended: `set_power(psleep)` on a sensor holding 0xA8. -/
theorem set_power_noop_transactions_witness :
    (busOf 0xA8).script = [] ∧ (busOf 0xA8).regs 0xF4 < 256 ∧
    (busOf 0xA8).regs 0xF4 &&& 0x03 = power_t.psleep.val ∧
    (set_power power_t.psleep (busOf 0xA8)).2.log
      = Xfer.rd 1 1 :: Xfer.wr [0xF4] 1 :: (busOf 0xA8).log ∧
    busWrites (set_power power_t.psleep (busOf 0xA8)).2.log
      = busWrites (busOf 0xA8).log + 1 ∧
    regWrites (set_power power_t.psleep (busOf 0xA8)).2.log = regWrites (busOf 0xA8).log :=
  ⟨rfl, by decide, by decide,
    set_power_noop_transactions power_t.psleep (busOf 0xA8) rfl (by decide) (by decide)⟩

/-! ## Probe -/

/-- What holds of the probe: `get_i2cbus` exits when the bus cannot be opened,
when the address cannot be selected, and when the 1-byte read of the chip id
is short; with complete transfers it exits exactly when register 0xD0 holds
0, and otherwise hands on the bus, whatever the non-zero identity byte is. -/
theorem get_i2cbus_outcomes (bus : Bus) (ioctl_ok : Bool) :
    get_i2cbus false ioctl_ok bus = none ∧
    get_i2cbus true false bus = none ∧
    ((i2c_read (fun _ => 0) 1 (i2c_write [0xD0] bus).bus).ret ≠ 1 →
      get_i2cbus true true bus = none) ∧
    (bus.script = [] → (get_i2cbus true true bus = none ↔ bus.regs 0xD0 % 256 = 0)) := by
  refine ⟨rfl, rfl, ?_, ?_⟩
  · intro h
    have hg : (i2c_write [0xD0] bus).bus.grant 1 = 0 := by
      have h1 := (i2c_write [0xD0] bus).bus.grant_le 1
      have h2 : (i2c_write [0xD0] bus).bus.grant 1 ≠ 1 := by simpa [i2c_read] using h
      omega
    simp [get_i2cbus, get_chipid, BME280_CHIP_ID_ADDR, i2c_read, hg]
  · intro hs
    simp [get_i2cbus, get_chipid, BME280_CHIP_ID_ADDR, select_read_buf, hs]

/-- C24 (the code departs from the claim). On `staleBus` the address write of
the chip-id transaction moves no byte, so the register pointer stays at 0xF4;
`get_chipid` carries on, reads the byte 0xF4 there and returns it, and
`get_i2cbus` accepts the probe. -/
theorem get_i2cbus_accepts_failed_transaction :
    (get_chipid staleBus).2.log = [Xfer.rd 1 1, Xfer.wr [0xD0] 0] ∧
    (get_chipid staleBus).1 = 0xF4 ∧
    (get_i2cbus true true staleBus).isSome = true := by
  decide

/-! ## Pressure divisor -/

theorem press_divisor_eq (tfine : Int) (bmec : bmecal) :
    press_divisor tfine bmec = (1 + press_x tfine bmec / 32768) * (bmec.dig_P1 : ℚ) := rfl

theorem press_divisor_zero_iff (tfine : Int) (bmec : bmecal) :
    press_divisor tfine bmec = 0 ↔ (bmec.dig_P1 = 0 ∨ press_x tfine bmec = -32768) := by
  rw [press_divisor_eq, mul_eq_zero]
  constructor
  · rintro (h | h)
    · right
      linarith
    · left
      exact_mod_cast h
  · rintro (h | h)
    · right
      exact_mod_cast h
    · left
      rw [h]
      norm_num

theorem comp_pressure_none_iff (adc_p tfine : Int) (bmec : bmecal) :
    comp_pressure adc_p tfine bmec = none ↔ press_divisor tfine bmec = 0 := by
  unfold comp_pressure
  simp only []
  split_ifs with h
  · simp [h]
  · simp [h]

/-- In exact arithmetic, with every coefficient 0, so `dig_P1 = 0`, the
pressure of `get_data` has no value. -/
theorem get_data_pressure_undefined :
    (get_data (calOf 0 0 0 0 0 0) (busOf 0)).1.pres_p = none :=
  (comp_pressure_none_iff _ _ _).mpr ((press_divisor_zero_iff _ _).mpr (Or.inl rfl))

/-! ## Range of `dig_H4` and `dig_H5` -/

theorem i2c_read_buf_lt (n : Nat) (b : Bus) (i : Nat) :
    (i2c_read (fun _ => 0) n b).buf i < 256 := by
  simp only [i2c_read]
  split_ifs
  · exact Nat.mod_lt _ (by decide)
  · decide

/-- C26. Whatever the sensor holds and whatever the transfers do, the
`dig_H4` and `dig_H5` that `get_calib` stores lie in 0..4095: each is the
value `v` of its byte expression, which is at most 4095, so the test
`> 32767` on the stored field is false and no reduction by 65536 happens. -/
theorem get_calib_H4_H5_range (bus : Bus) :
    (0 ≤ (get_calib bus).1.dig_H4 ∧ (get_calib bus).1.dig_H4 ≤ 4095) ∧
    (0 ≤ (get_calib bus).1.dig_H5 ∧ (get_calib bus).1.dig_H5 ≤ 4095) ∧
    ∃ v4 v5 : Nat, v4 ≤ 4095 ∧ v5 ≤ 4095 ∧
      ¬ (to_int16 (v4 : Int) > 32767) ∧ ¬ (to_int16 (v5 : Int) > 32767) ∧
      (get_calib bus).1.dig_H4 = store_s16 (v4 : Int) ∧
      (get_calib bus).1.dig_H5 = store_s16 (v5 : Int) ∧
      (get_calib bus).1.dig_H4 = (v4 : Int) ∧ (get_calib bus).1.dig_H5 = (v5 : Int) := by
  have hand : ∀ x : Nat, x &&& 0xF = x % 16 := fun x => Nat.and_pow_two_sub_one_eq_mod x 4
  simp only [get_calib, hand, store_s16_eq]
  generalize hr : i2c_read (fun _ => 0) 7 _ = r3
  have h3 : r3.buf 3 < 256 := by rw [← hr]; exact i2c_read_buf_lt _ _ _
  have h4 : r3.buf 4 < 256 := by rw [← hr]; exact i2c_read_buf_lt _ _ _
  have h5 : r3.buf 5 < 256 := by rw [← hr]; exact i2c_read_buf_lt _ _ _
  refine ⟨by omega, by omega, r3.buf 3 * 16 + r3.buf 4 % 16, r3.buf 4 / 16 + r3.buf 5 * 16,
    by omega, by omega, ?_, ?_, rfl, rfl, by omega, by omega⟩
  · unfold to_int16
    omega
  · unfold to_int16
    omega

/-! ## Displayed oversampling -/

/-- C27. Displayed oversampling round trip: for every channel, every name
among skip, 1, 2, 4, 8, 16 and every initial register content (transfers
complete), `print_osrs` applied to what the channel's getter returns after the
channel's setter prints the label of the name, followed by a newline. -/
theorem displayed_osrs_round_trip (c : Channel) (bus : Bus) (p : String × String)
    (hs : bus.script = [])
    (hp : p ∈ [("skip", "OFF (skip)"), ("1", "1x"), ("2", "2x"), ("4", "4x"),
               ("8", "8x"), ("16", "16x")]) :
    print_osrs (c.get_osrs (c.set_osrs p.1 bus).2).1 = some (p.2 ++ "\n") := by
  simp only [List.mem_cons, List.mem_singleton, List.not_mem_nil, or_false] at hp
  have key : ∀ (name : String) (ch ctp : Nat),
      (name, ch) ∈ [("skip", 0), ("1", 1), ("2", 2), ("4", 3), ("8", 4), ("16", 5)] →
      (name, ctp) ∈ [("skip", 0), ("1", 1), ("2", 2), ("4", 3), ("8", 4), ("16", 6)] →
      (c.get_osrs (c.set_osrs name bus).2).1 = ch ∨
      (c.get_osrs (c.set_osrs name bus).2).1 = ctp := by
    intro name ch ctp h1 h2
    have h := osrs_set_then_get bus (name, ch) (name, ctp) hs h1 h2
    cases c
    · exact Or.inr h.2.1.2
    · exact Or.inl h.1.2
    · exact Or.inr h.2.2.2
  rcases hp with rfl | rfl | rfl | rfl | rfl | rfl
  · rcases key "skip" 0 0 (by decide) (by decide) with h | h <;> rw [h] <;> decide
  · rcases key "1" 1 1 (by decide) (by decide) with h | h <;> rw [h] <;> decide
  · rcases key "2" 2 2 (by decide) (by decide) with h | h <;> rw [h] <;> decide
  · rcases key "4" 3 3 (by decide) (by decide) with h | h <;> rw [h] <;> decide
  · rcases key "8" 4 4 (by decide) (by decide) with h | h <;> rw [h] <;> decide
  · rcases key "16" 5 6 (by decide) (by decide) with h | h <;> rw [h] <;> decide

/-- Witness for C27: pressure channel, name "16", from the byte 0xAB; the
getter returns 6 and the label printed is "16x". -/
theorem displayed_osrs_round_trip_witness :
    (busOf 0xAB).script = [] ∧
    ("16", "16x") ∈ [("skip", "OFF (skip)"), ("1", "1x"), ("2", "2x"), ("4", "4x"),
                     ("8", "8x"), ("16", "16x")] ∧
    (get_p_osrs (set_p_osrs "16" (busOf 0xAB)).2).1 = 6 ∧
    print_osrs (get_p_osrs (set_p_osrs "16" (busOf 0xAB)).2).1 = some ("16x" ++ "\n") :=
  ⟨rfl, by decide, by decide,
    displayed_osrs_round_trip Channel.pressure (busOf 0xAB) ("16", "16x") rfl (by decide)⟩

/-! ## The enumerator `force2` -/

set_option maxRecDepth 100000 in
theorem power_bits_mode_ne_two (mode : power_t) :
    ∀ r, r < 256 → r &&& 0x03 ≠ 2 → (power_bits mode r % 256) &&& 0x03 ≠ 2 := by
  cases mode <;> decide

/-- C28. `set_power` with the enumerator `force2` (0x02): for every byte `r`
of register 0xF4 with `(r AND 3) != 2`, `set_power(force2)` writes `r` back
unchanged, every register holds afterwards what it held before, and the call
returns -1; and for every mode, `set_power` leaves the mode bits of 0xF4
different from 2. -/
theorem set_power_force2 (bus : Bus) (hs : bus.script = []) (hr : bus.regs 0xF4 < 256)
    (hne : bus.regs 0xF4 &&& 0x03 ≠ 2) :
    (set_power power_t.force2 bus).2.log
      = Xfer.rd 1 1 :: Xfer.wr [0xF4] 1 :: Xfer.wr [0xF4, bus.regs 0xF4] 2 ::
        Xfer.rd 1 1 :: Xfer.wr [0xF4] 1 :: bus.log ∧
    (∀ a, (set_power power_t.force2 bus).2.regs a = bus.regs a) ∧
    (set_power power_t.force2 bus).1 = -1 ∧
    (∀ mode, (set_power mode bus).2.regs 0xF4 &&& 0x03 ≠ 2) := by
  have hr' : bus.regs 0xF4 % 256 = bus.regs 0xF4 := Nat.mod_eq_of_lt hr
  refine ⟨?_, ?_, ?_, ?_⟩
  · rw [set_power_ok _ bus hs, hr', if_neg (by simpa [power_t.val] using hne)]
    rfl
  · intro a
    rw [set_power_ok _ bus hs, hr', if_neg (by simpa [power_t.val] using hne)]
    by_cases ha : a = 0xF4
    · subst ha
      simp [power_bits, hr']
    · simp [ha]
  · rw [set_power_ok _ bus hs, hr', if_neg (by simpa [power_t.val] using hne)]
    simp [power_bits, hr', power_t.val, hne]
  · intro mode
    rw [set_power_ok _ bus hs, hr']
    by_cases h : bus.regs 0xF4 &&& 0x03 = mode.val
    · rw [if_pos h]
      exact hne
    · rw [if_neg h]
      simpa using power_bits_mode_ne_two mode _ hr hne

/-- Witness for C28: `set_power(force2)` on a sensor holding 0xA9. -/
theorem set_power_force2_witness :
    (busOf 0xA9).script = [] ∧ (busOf 0xA9).regs 0xF4 < 256 ∧
    (busOf 0xA9).regs 0xF4 &&& 0x03 ≠ 2 ∧
    (set_power power_t.force2 (busOf 0xA9)).2.log
      = Xfer.rd 1 1 :: Xfer.wr [0xF4] 1 :: Xfer.wr [0xF4, (busOf 0xA9).regs 0xF4] 2 ::
        Xfer.rd 1 1 :: Xfer.wr [0xF4] 1 :: (busOf 0xA9).log ∧
    (set_power power_t.force2 (busOf 0xA9)).1 = -1 := by
  have h := set_power_force2 (busOf 0xA9) rfl (by decide) (by decide)
  exact ⟨rfl, by decide, by decide, h.1, h.2.2.1⟩

/-! ## Setters on disjoint fields -/

theorem set_field_regs_ok (reg : Nat) (chain : String → Nat → Option Nat) (mode : String)
    (bus : Bus) (hs : bus.script = []) (x : Nat) :
    (set_field reg chain mode bus).2.regs x =
      match chain mode (bus.regs reg % 256) with
      | none => bus.regs x
      | some v => if x = reg then v % 256 else bus.regs x := by
  rw [set_field_ok reg chain mode bus hs]
  cases chain mode (bus.regs reg % 256) <;> rfl

theorem t_osrs_bits_form (mode : String) :
    ∃ c : Option Nat, (∀ k, c = some k → k < 8) ∧
      ∀ r, r < 256 → t_osrs_bits mode r = c.map (fun k => k * 32 + r % 32) := by
  refine ⟨if mode = "skip" then some 0 else if mode = "1" then some 1
    else if mode = "2" then some 2 else if mode = "4" then some 3
    else if mode = "8" then some 4 else if mode = "16" then some 6 else none, ?_, ?_⟩
  · intro k hk
    split_ifs at hk <;> simp at hk <;> omega
  · intro r hr
    rw [t_osrs_bits_eq mode r hr]
    split_ifs <;> rfl

theorem stby_bits_form (mode : String) :
    ∃ c : Option Nat, (∀ k, c = some k → k < 8) ∧
      ∀ r, r < 256 → stby_bits mode r = c.map (fun k => k * 32 + r % 32) := by
  refine ⟨if mode = "0.5" then some 0 else if mode = "62.5" then some 1
    else if mode = "125" then some 2 else if mode = "250" then some 3
    else if mode = "500" then some 4 else if mode = "1000" then some 5
    else if mode = "10" then some 6 else if mode = "20" then some 7 else none, ?_, ?_⟩
  · intro k hk
    split_ifs at hk <;> simp at hk <;> omega
  · intro r hr
    rw [stby_bits_eq mode r hr]
    split_ifs <;> rfl

theorem p_osrs_bits_form (mode : String) :
    ∃ c : Option Nat, (∀ k, c = some k → k < 8) ∧
      ∀ r, r < 256 → p_osrs_bits mode r = c.map (fun k => r / 32 * 32 + k * 4 + r % 4) := by
  refine ⟨if mode = "skip" then some 0 else if mode = "1" then some 1
    else if mode = "2" then some 2 else if mode = "4" then some 3
    else if mode = "8" then some 4 else if mode = "16" then some 6 else none, ?_, ?_⟩
  · intro k hk
    split_ifs at hk <;> simp at hk <;> omega
  · intro r hr
    rw [p_osrs_bits_eq mode r hr]
    split_ifs <;> rfl

theorem filter_bits_form (mode : String) :
    ∃ c : Option Nat, (∀ k, c = some k → k < 8) ∧
      ∀ r, r < 256 → filter_bits mode r = c.map (fun k => r / 32 * 32 + k * 4 + r % 4) := by
  refine ⟨if mode = "off" then some 0 else if mode = "2" then some 1
    else if mode = "4" then some 2 else if mode = "8" then some 3
    else if mode = "16" then some 4 else none, ?_, ?_⟩
  · intro k hk
    split_ifs at hk <;> simp at hk <;> omega
  · intro r hr
    rw [filter_bits_eq mode r hr]
    split_ifs <;> rfl

theorem set_field_commute (reg : Nat) (hi mid : String → Nat → Option Nat)
    (mh mm : String) (bus : Bus) (hs : bus.script = [])
    (hhi : ∃ c : Option Nat, (∀ k, c = some k → k < 8) ∧
      ∀ r, r < 256 → hi mh r = c.map (fun k => k * 32 + r % 32))
    (hmid : ∃ c : Option Nat, (∀ k, c = some k → k < 8) ∧
      ∀ r, r < 256 → mid mm r = c.map (fun k => r / 32 * 32 + k * 4 + r % 4))
    (x : Nat) :
    (set_field reg mid mm (set_field reg hi mh bus).2).2.regs x
      = (set_field reg hi mh (set_field reg mid mm bus).2).2.regs x := by
  obtain ⟨ch, hch, fh⟩ := hhi
  obtain ⟨cm, hcm, fm⟩ := hmid
  have hlt : ∀ n : Nat, n % 256 < 256 := fun n => Nat.mod_lt n (by decide)
  rw [set_field_regs_ok reg mid mm _ (set_field_script reg hi mh bus hs),
    set_field_regs_ok reg hi mh _ (set_field_script reg mid mm bus hs),
    set_field_regs_ok reg hi mh bus hs reg, set_field_regs_ok reg mid mm bus hs reg,
    set_field_regs_ok reg hi mh bus hs x, set_field_regs_ok reg mid mm bus hs x]
  rw [fh _ (hlt _), fm _ (hlt _)]
  rcases ch with _ | kh <;> rcases cm with _ | km
  · simp [fh _ (hlt _), fm _ (hlt _)]
  · simp [fh _ (hlt _), fm _ (hlt _)]
  · simp [fh _ (hlt _), fm _ (hlt _)]
  · have h1 := hch kh rfl
    have h2 := hcm km rfl
    simp only [Option.map_some', if_true, fh _ (hlt _), fm _ (hlt _)]
    by_cases hx : x = reg
    · simp only [hx, if_true]
      have hr := hlt (bus.regs reg)
      generalize bus.regs reg % 256 = r at hr ⊢
      have e1 : (kh * 32 + r % 32) % 256 = kh * 32 + r % 32 := by omega
      have e2 : (r / 32 * 32 + km * 4 + r % 4) % 256 = r / 32 * 32 + km * 4 + r % 4 := by
        omega
      have a1 : (kh * 32 + r % 32) / 32 * 32 + km * 4 + (kh * 32 + r % 32) % 4
          = kh * 32 + km * 4 + r % 4 := by omega
      have a2 : kh * 32 + (r / 32 * 32 + km * 4 + r % 4) % 32
          = kh * 32 + km * 4 + r % 4 := by omega
      simp only [e1, e2, Nat.mod_mod, a1, a2]
    · simp only [hx, if_false]

/-- C29. Setters on disjoint fields commute: with complete transfers, for
every initial byte of register 0xF4 and all names `a`, `b` (recognized or
not), `set_t_osrs(a)` then `set_p_osrs(b)` leaves in every register, 0xF4
included, the byte that `set_p_osrs(b)` then `set_t_osrs(a)` leaves; likewise
`set_filter(fa)` then `set_stby(sb)` against `set_stby(sb)` then
`set_filter(fa)` on 0xF5. -/
theorem setters_commute (bus : Bus) (a b fa sb : String) (hs : bus.script = []) :
    (∀ x, (set_p_osrs b (set_t_osrs a bus).2).2.regs x
            = (set_t_osrs a (set_p_osrs b bus).2).2.regs x) ∧
    (∀ x, (set_stby sb (set_filter fa bus).2).2.regs x
            = (set_filter fa (set_stby sb bus).2).2.regs x) := by
  constructor
  · intro x
    exact set_field_commute BME280_CTRL_MEAS_ADDR t_osrs_bits p_osrs_bits a b bus hs
      (t_osrs_bits_form a) (p_osrs_bits_form b) x
  · intro x
    exact (set_field_commute BME280_CONFIG_ADDR stby_bits filter_bits sb fa bus hs
      (stby_bits_form sb) (filter_bits_form fa) x).symm

/-- Witness for C29: from the byte 0xAB, "4" for temperature with "16" for
pressure, and "2" for the filter with "1000" for standby. -/
theorem setters_commute_witness :
    (busOf 0xAB).script = [] ∧
    (set_p_osrs "16" (set_t_osrs "4" (busOf 0xAB)).2).2.regs 0xF4 = 0x7B ∧
    (set_p_osrs "16" (set_t_osrs "4" (busOf 0xAB)).2).2.regs 0xF4
      = (set_t_osrs "4" (set_p_osrs "16" (busOf 0xAB)).2).2.regs 0xF4 ∧
    (set_stby "1000" (set_filter "2" (busOf 0xAB)).2).2.regs 0xF5
      = (set_filter "2" (set_stby "1000" (busOf 0xAB)).2).2.regs 0xF5 := by
  have h := setters_commute (busOf 0xAB) "4" "16" "2" "1000" rfl
  exact ⟨rfl, by decide, h.1 0xF4, h.2 0xF5⟩

/-! ## Signed coefficients are decoded without loss -/

/-- C30. Signed 16-bit decoding loses nothing: for each signed coefficient
(T2, T3, P2..P9, H2) and every byte pair `(lsb, msb)` at its two addresses,
the value `get_calib` stores lies in -32768..32767, and re-encoding it as a
two's-complement little-endian pair (the value mod 65536, split into low and
high byte) gives back `lsb` and `msb`; so two byte pairs that decode to the
same value are equal. -/
theorem get_calib_signed_lossless (bus : Bus) (lsb msb : Nat) (p : (bmecal → Int) × Nat)
    (hs : bus.script = []) (hp : p ∈ signed_pair_coeffs)
    (hl : lsb < 256) (hm : msb < 256)
    (h1 : bus.regs p.2 = lsb) (h2 : bus.regs (p.2 + 1) = msb) :
    -32768 ≤ p.1 (get_calib bus).1 ∧ p.1 (get_calib bus).1 ≤ 32767 ∧
    (p.1 (get_calib bus).1 % 65536) % 256 = (lsb : Int) ∧
    (p.1 (get_calib bus).1 % 65536) / 256 = (msb : Int) := by
  simp only [signed_pair_coeffs, List.mem_cons, List.mem_singleton, List.not_mem_nil,
    or_false] at hp
  rcases hp with rfl | rfl | rfl | rfl | rfl | rfl | rfl | rfl | rfl | rfl | rfl <;>
  · simp only [Nat.reduceAdd] at h1 h2
    subst h1 h2
    simp only [get_calib, select_read_buf, select_read_bus, hs, store_s16_eq,
      BME280_CALIB_00_ADDR, BME280_CALIB_25_ADDR, BME280_CALIB_26_ADDR]
    simp only [Nat.reduceAdd, Nat.reduceLT, if_true, Nat.add_zero]
    omega

/-- Witness for C30: on `addrBus` the pair at 0x90/0x91 is (144, 145);
`dig_P2` is -28272, and -28272 mod 65536 = 37264 = 144 + 145 * 256. -/
theorem get_calib_signed_lossless_witness :
    addrBus.script = [] ∧ (bmecal.dig_P2, 0x90) ∈ signed_pair_coeffs ∧
    144 < 256 ∧ 145 < 256 ∧ addrBus.regs 0x90 = 144 ∧ addrBus.regs (0x90 + 1) = 145 ∧
    -32768 ≤ (get_calib addrBus).1.dig_P2 ∧ (get_calib addrBus).1.dig_P2 ≤ 32767 ∧
    ((get_calib addrBus).1.dig_P2 % 65536) % 256 = 144 ∧
    ((get_calib addrBus).1.dig_P2 % 65536) / 256 = 145 :=
  ⟨rfl, by simp [signed_pair_coeffs], by decide, by decide, rfl, rfl, by
    simpa using get_calib_signed_lossless addrBus 144 145 (bmecal.dig_P2, 0x90) rfl
      (by simp [signed_pair_coeffs]) (by decide) (by decide) rfl rfl⟩

/-! ## Rounding to a binary format -/

theorem rne_intCast (n : Int) : rne (n : ℚ) = n := by
  simp [rne]

theorem rne_cases (q : ℚ) : rne q = ⌊q⌋ ∨ rne q = ⌊q⌋ + 1 := by
  unfold rne
  split_ifs <;> simp

theorem floor_le_rne (q : ℚ) : ⌊q⌋ ≤ rne q := by
  rcases rne_cases q with h | h <;> omega

theorem rne_le_of_le (q : ℚ) (N : Int) (h : q ≤ N) : rne q ≤ N := by
  have hf : ⌊q⌋ ≤ N := by
    have h0 : (⌊q⌋ : ℚ) ≤ N := (Int.floor_le q).trans h
    exact_mod_cast h0
  unfold rne
  split_ifs with h1 h2 h3
  · exact hf
  · have : (⌊q⌋ : ℚ) < N := by linarith
    have : ⌊q⌋ < N := by exact_mod_cast this
    omega
  · exact hf
  · have hd : q - ⌊q⌋ = 1 / 2 := le_antisymm (not_lt.mp h2) (not_lt.mp h1)
    have : (⌊q⌋ : ℚ) < N := by linarith
    have : ⌊q⌋ < N := by exact_mod_cast this
    omega

theorem le_rne_of_le (q : ℚ) (N : Int) (h : (N : ℚ) ≤ q) : N ≤ rne q :=
  (Int.le_floor.mpr h).trans (floor_le_rne q)

theorem abs_rne_le (q : ℚ) (N : Int) (h : |q| ≤ N) : |rne q| ≤ N := by
  rw [abs_le] at h ⊢
  refine ⟨?_, rne_le_of_le q N h.2⟩
  apply le_rne_of_le
  push_cast
  exact h.1

theorem log_spec (x : ℚ) (hx : x ≠ 0) :
    (2 : ℚ) ^ (Int.log 2 |x|) ≤ |x| ∧ |x| < (2 : ℚ) ^ (Int.log 2 |x| + 1) := by
  have hpos : 0 < |x| := abs_pos.mpr hx
  have h1 := Int.zpow_log_le_self (R := ℚ) (b := 2) (by norm_num) hpos
  have h2 := Int.lt_zpow_succ_log_self (R := ℚ) (b := 2) (by norm_num) |x|
  simpa using And.intro h1 h2

/-- The scaled operand of `fl`: with `e = log2 |x|` and `u = 2^(e-p+1)`, the
quotient `x / u` has magnitude in `[2^(p-1), 2^p)`. -/
theorem scaled_bounds (p : Nat) (x : ℚ) (hx : x ≠ 0) :
    (2 : ℚ) ^ ((p : Int) - 1) ≤ |x / 2 ^ (Int.log 2 |x| - (p : Int) + 1)| ∧
    |x / 2 ^ (Int.log 2 |x| - (p : Int) + 1)| < (2 : ℚ) ^ (p : Int) := by
  obtain ⟨h1, h2⟩ := log_spec x hx
  set e := Int.log 2 |x| with he
  have hu : (0 : ℚ) < 2 ^ (e - (p : Int) + 1) := zpow_pos (by norm_num) _
  rw [abs_div, abs_of_pos hu]
  have two_ne : (2 : ℚ) ≠ 0 := by norm_num
  constructor
  · rw [le_div_iff₀ hu, ← zpow_add₀ two_ne]
    have : (p : Int) - 1 + (e - (p : Int) + 1) = e := by ring
    rw [this]
    exact h1
  · rw [div_lt_iff₀ hu, ← zpow_add₀ two_ne]
    have : (p : Int) + (e - (p : Int) + 1) = e + 1 := by ring
    rw [this]
    exact h2

theorem fl_zero (p : Nat) : fl p 0 = 0 := by simp [fl]

theorem fl_eq_zero_iff (p : Nat) (hp : 1 ≤ p) (x : ℚ) : fl p x = 0 ↔ x = 0 := by
  constructor
  · intro h
    by_contra hx
    obtain ⟨h1, -⟩ := scaled_bounds p x hx
    have hone : (1 : ℚ) ≤ |x / 2 ^ (Int.log 2 |x| - (p : Int) + 1)| := by
      refine le_trans ?_ h1
      have : (0 : Int) ≤ (p : Int) - 1 := by omega
      exact one_le_zpow₀ (by norm_num) this
    have hr : rne (x / 2 ^ (Int.log 2 |x| - (p : Int) + 1)) ≠ 0 := by
      rcases le_abs'.mp hone with hneg | hpos
      · have := rne_le_of_le _ (-1) (by push_cast; linarith)
        omega
      · have := le_rne_of_le _ 1 (by push_cast; linarith)
        omega
    have hu : (2 : ℚ) ^ (Int.log 2 |x| - (p : Int) + 1) ≠ 0 :=
      (zpow_pos (by norm_num) _).ne'
    simp only [fl, if_neg hx, mul_eq_zero, Int.cast_eq_zero] at h
    rcases h with h | h
    · exact hr h
    · exact hu h
  · rintro rfl
    exact fl_zero p

theorem fl_isFloat (p : Nat) (x : ℚ) : IsFloat p (fl p x) := by
  by_cases hx : x = 0
  · exact ⟨0, 0, by simp, by simp [hx, fl]⟩
  · refine ⟨rne (x / 2 ^ (Int.log 2 |x| - (p : Int) + 1)), Int.log 2 |x| - (p : Int) + 1, ?_, ?_⟩
    · obtain ⟨-, h2⟩ := scaled_bounds p x hx
      apply abs_rne_le
      push_cast
      rw [zpow_natCast] at h2
      exact h2.le
    · simp [fl, hx]

theorem isFloat_strict (p : Nat) (hp : 1 ≤ p) (y : ℚ) (h : IsFloat p y) :
    ∃ m k : Int, |m| < 2 ^ p ∧ y = (m : ℚ) * 2 ^ k := by
  obtain ⟨m, k, hm, rfl⟩ := h
  have two_ne : (2 : ℚ) ≠ 0 := by norm_num
  have hone : (1 : Int) < 2 ^ p := by
    calc (1 : Int) < 2 ^ 1 := by norm_num
      _ ≤ 2 ^ p := pow_le_pow_right₀ (by norm_num) hp
  rcases lt_or_eq_of_le hm with hlt | heq
  · exact ⟨m, k, hlt, rfl⟩
  · rcases abs_eq (by positivity : (0 : Int) ≤ 2 ^ p) |>.mp heq with h1 | h1
    · refine ⟨1, k + p, by simpa using hone, ?_⟩
      rw [h1, zpow_add₀ two_ne, zpow_natCast]
      push_cast
      ring
    · refine ⟨-1, k + p, by simpa using hone, ?_⟩
      rw [h1, zpow_add₀ two_ne, zpow_natCast]
      push_cast
      ring

theorem fl_of_isFloat (p : Nat) (hp : 1 ≤ p) (y : ℚ) (h : IsFloat p y) : fl p y = y := by
  by_cases hy : y = 0
  · rw [hy, fl_zero]
  obtain ⟨m, k, hm, rfl⟩ := isFloat_strict p hp y h
  have two_ne : (2 : ℚ) ≠ 0 := by norm_num
  have h2k : (0 : ℚ) < 2 ^ k := zpow_pos (by norm_num) k
  have habs : |(m : ℚ) * 2 ^ k| = |(m : ℚ)| * 2 ^ k := by
    rw [abs_mul, abs_of_pos h2k]
  have hlt : |(m : ℚ) * 2 ^ k| < (2 : ℚ) ^ ((p : Int) + k) := by
    rw [habs, zpow_add₀ two_ne, zpow_natCast]
    apply mul_lt_mul_of_pos_right _ h2k
    have : ((|m| : Int) : ℚ) < ((2 ^ p : Int) : ℚ) := by exact_mod_cast hm
    simpa using this
  have hpos : (0 : ℚ) < |(m : ℚ) * 2 ^ k| := abs_pos.mpr hy
  have hlog : Int.log 2 |(m : ℚ) * 2 ^ k| < (p : Int) + k := by
    have := (Int.lt_zpow_iff_log_lt (R := ℚ) (b := 2) (by norm_num) hpos
      (x := (p : Int) + k)).mp (by simpa using hlt)
    exact this
  set e := Int.log 2 |(m : ℚ) * 2 ^ k| with he
  obtain ⟨j, hj⟩ : ∃ j : Nat, (j : Int) = k - (e - (p : Int) + 1) :=
    ⟨(k - (e - (p : Int) + 1)).toNat, by omega⟩
  have hq : (m : ℚ) * 2 ^ k / 2 ^ (e - (p : Int) + 1) = ((m * 2 ^ j : Int) : ℚ) := by
    rw [mul_div_assoc, ← zpow_sub₀ two_ne, ← hj, zpow_natCast]
    push_cast
    ring
  simp only [fl, if_neg hy]
  rw [← he, hq, rne_intCast, ← hq]
  have hu : (2 : ℚ) ^ (e - (p : Int) + 1) ≠ 0 := (zpow_pos (by norm_num) _).ne'
  field_simp

theorem fl_abs_le_zpow (p : Nat) (hp : 1 ≤ p) (x : ℚ) (k : Int) (h : |x| ≤ 2 ^ k) :
    |fl p x| ≤ 2 ^ k := by
  have h2k : (0 : ℚ) < 2 ^ k := zpow_pos (by norm_num) k
  have hone : (1 : Int) ≤ 2 ^ p := one_le_pow₀ (by norm_num)
  by_cases hx : x = 0
  · rw [hx, fl_zero, abs_zero]
    exact h2k.le
  rcases lt_or_eq_of_le h with hlt | heq
  · have hpos : (0 : ℚ) < |x| := abs_pos.mpr hx
    have hlog : Int.log 2 |x| < k :=
      (Int.lt_zpow_iff_log_lt (R := ℚ) (b := 2) (by norm_num) hpos (x := k)).mp
        (by simpa using hlt)
    obtain ⟨-, hb⟩ := scaled_bounds p x hx
    have hr : |rne (x / 2 ^ (Int.log 2 |x| - (p : Int) + 1))| ≤ 2 ^ p := by
      apply abs_rne_le
      push_cast
      rw [zpow_natCast] at hb
      exact hb.le
    have hr' : |((rne (x / 2 ^ (Int.log 2 |x| - (p : Int) + 1)) : Int) : ℚ)| ≤ 2 ^ (p : Int) := by
      rw [zpow_natCast]
      have : ((|rne (x / 2 ^ (Int.log 2 |x| - (p : Int) + 1))| : Int) : ℚ)
          ≤ ((2 ^ p : Int) : ℚ) := by exact_mod_cast hr
      simpa using this
    have hu : (0 : ℚ) < 2 ^ (Int.log 2 |x| - (p : Int) + 1) := zpow_pos (by norm_num) _
    have two_ne : (2 : ℚ) ≠ 0 := by norm_num
    simp only [fl, if_neg hx]
    rw [abs_mul, abs_of_pos hu]
    calc |((rne (x / 2 ^ (Int.log 2 |x| - (p : Int) + 1)) : Int) : ℚ)|
          * 2 ^ (Int.log 2 |x| - (p : Int) + 1)
        ≤ 2 ^ (p : Int) * 2 ^ (Int.log 2 |x| - (p : Int) + 1) :=
          mul_le_mul_of_nonneg_right hr' hu.le
      _ = 2 ^ (Int.log 2 |x| + 1) := by
          rw [← zpow_add₀ two_ne]
          congr 1
          ring
      _ ≤ 2 ^ k := zpow_le_zpow_right₀ (by norm_num) (by omega)
  · have hfl : IsFloat p x := by
      rcases abs_eq h2k.le |>.mp heq with h1 | h1
      · exact ⟨1, k, by simpa using hone, by simp [h1]⟩
      · exact ⟨-1, k, by simpa using hone, by simp [h1]⟩
    rw [fl_of_isFloat p hp x hfl]
    exact h

/-! ## The float model: pressure divisor -/

theorem f32_eq_zero_iff (x : ℚ) : f32 x = 0 ↔ x = 0 := fl_eq_zero_iff 24 (by norm_num) x

theorem f64_eq_zero_iff (x : ℚ) : f64 x = 0 ↔ x = 0 := fl_eq_zero_iff 53 (by norm_num) x

/-- A `float` value divided by a power of two is a `double` value. -/
theorem isFloat_f32_div (x : ℚ) (j : Nat) : IsFloat 53 (f32 x / 2 ^ j) := by
  obtain ⟨m, k, hm, h⟩ := fl_isFloat 24 x
  have two_ne : (2 : ℚ) ≠ 0 := by norm_num
  refine ⟨m, k - j, hm.trans (pow_le_pow_right₀ (by norm_num) (by norm_num)), ?_⟩
  unfold f32
  rw [h, zpow_sub₀ two_ne, zpow_natCast]
  ring

theorem press_divisor_fl_zero_iff (tfine : ℚ) (bmec : bmecal) :
    press_divisor_fl tfine bmec = 0 ↔
      (bmec.dig_P1 = 0 ∨ press_x_fl tfine bmec = -32768) := by
  have hx : f64 (press_x_fl tfine bmec / 32768) = press_x_fl tfine bmec / 32768 := by
    have h := isFloat_f32_div
      (f64 (f64 (f64 (f32 (f32 (f32 (bmec.dig_P3 : ℚ) * press_var1_fl tfine)
        * press_var1_fl tfine) / 524288)
        + f32 (f32 (bmec.dig_P2 : ℚ) * press_var1_fl tfine)) / 524288)) 15
    have e : press_x_fl tfine bmec / 32768 = press_x_fl tfine bmec / 2 ^ 15 := by norm_num
    rw [e]
    exact fl_of_isFloat 53 (by norm_num) _ h
  unfold press_divisor_fl
  rw [f32_eq_zero_iff, f64_eq_zero_iff, mul_eq_zero, f64_eq_zero_iff, f32_eq_zero_iff, hx]
  constructor
  · rintro (h | h)
    · right
      linarith
    · left
      exact_mod_cast h
  · rintro (h | h)
    · right
      exact_mod_cast h
    · left
      rw [h]
      norm_num

theorem press_p_fl_none_iff (adc_p : Int) (tfine : ℚ) (bmec : bmecal) :
    press_p_fl adc_p tfine bmec = none ↔ press_divisor_fl tfine bmec = 0 := by
  unfold press_p_fl fdiv64
  simp only []
  split_ifs with h
  · simp [h]
  · simp [h]

/-! ## The float model: fine temperature -/

theorem abs_c_long_le (x : ℚ) : |((c_long x : Int) : ℚ)| ≤ |x| := by
  rw [c_long_eq]
  split_ifs with h
  · have h1 := Int.floor_le x
    have h2 : (0 : ℚ) ≤ ⌊x⌋ := by exact_mod_cast Int.floor_nonneg.mpr h
    rw [abs_of_nonneg h2, abs_of_nonneg h]
    exact h1
  · have hx : x < 0 := not_le.mp h
    have h1 := Int.le_ceil x
    have h2 : ((⌈x⌉ : Int) : ℚ) ≤ 0 := by
      exact_mod_cast Int.ceil_le.mpr (by exact_mod_cast hx.le)
    rw [abs_of_nonpos h2, abs_of_neg hx]
    linarith

theorem fl_abs_le (p : Nat) (hp : 1 ≤ p) (x B : ℚ) (k : Int) (hB : B = 2 ^ k) (h : |x| ≤ B) :
    |fl p x| ≤ B := by
  subst hB
  exact fl_abs_le_zpow p hp x k h

theorem f32_abs_le (x B : ℚ) (k : Int) (hB : B = 2 ^ k) (h : |x| ≤ B) : |f32 x| ≤ B :=
  fl_abs_le 24 (by norm_num) x B k hB h

theorem f64_abs_le (x B : ℚ) (k : Int) (hB : B = 2 ^ k) (h : |x| ≤ B) : |f64 x| ≤ B :=
  fl_abs_le 53 (by norm_num) x B k hB h

theorem abs_intCast_le (n : Int) (B : Int) (h1 : -B ≤ n) (h2 : n ≤ B) :
    |(n : ℚ)| ≤ (B : ℚ) := by
  rw [abs_le]
  constructor
  · exact_mod_cast h1
  · exact_mod_cast h2

theorem var1_fl_abs_le (adc_t : Int) (bmec : bmecal)
    (ha : 0 ≤ adc_t ∧ adc_t < 2 ^ 20) (h1 : 0 ≤ bmec.dig_T1 ∧ bmec.dig_T1 ≤ 65535)
    (h2 : -32768 ≤ bmec.dig_T2 ∧ bmec.dig_T2 ≤ 32767) :
    |var1_fl adc_t bmec| ≤ 4194304 := by
  have a1 : |f32 (adc_t : ℚ)| ≤ 1048576 :=
    f32_abs_le _ _ 20 (by norm_num) (by
      have := abs_intCast_le adc_t 1048576 (by omega) (by omega)
      simpa using this)
  have a2 : |f64 (f32 (adc_t : ℚ) / 16384)| ≤ 64 :=
    f64_abs_le _ _ 6 (by norm_num) (by
      rw [abs_div, abs_of_pos (by norm_num : (0 : ℚ) < 16384)]
      linarith)
  have b1 : |f32 (bmec.dig_T1 : ℚ)| ≤ 65536 :=
    f32_abs_le _ _ 16 (by norm_num) (by
      have := abs_intCast_le bmec.dig_T1 65536 (by omega) (by omega)
      simpa using this)
  have b2 : |f64 (f32 (bmec.dig_T1 : ℚ) / 1024)| ≤ 64 :=
    f64_abs_le _ _ 6 (by norm_num) (by
      rw [abs_div, abs_of_pos (by norm_num : (0 : ℚ) < 1024)]
      linarith)
  have d : |f64 (f64 (f32 (adc_t : ℚ) / 16384) - f64 (f32 (bmec.dig_T1 : ℚ) / 1024))| ≤ 128 :=
    f64_abs_le _ _ 7 (by norm_num) (by
      have := abs_sub (f64 (f32 (adc_t : ℚ) / 16384)) (f64 (f32 (bmec.dig_T1 : ℚ) / 1024))
      linarith)
  have c : |f32 (bmec.dig_T2 : ℚ)| ≤ 32768 :=
    f32_abs_le _ _ 15 (by norm_num) (by
      have := abs_intCast_le bmec.dig_T2 32768 (by omega) (by omega)
      simpa using this)
  have m : |f64 (f64 (f64 (f32 (adc_t : ℚ) / 16384) - f64 (f32 (bmec.dig_T1 : ℚ) / 1024))
      * f32 (bmec.dig_T2 : ℚ))| ≤ 4194304 :=
    f64_abs_le _ _ 22 (by norm_num) (by
      rw [abs_mul]
      calc _ ≤ (128 : ℚ) * 32768 := mul_le_mul d c (abs_nonneg _) (by norm_num)
        _ = 4194304 := by norm_num)
  exact f32_abs_le _ _ 22 (by norm_num) m

theorem var2_fl_abs_le (adc_t : Int) (bmec : bmecal)
    (ha : 0 ≤ adc_t ∧ adc_t < 2 ^ 20) (h1 : 0 ≤ bmec.dig_T1 ∧ bmec.dig_T1 ≤ 65535)
    (h3 : -32768 ≤ bmec.dig_T3 ∧ bmec.dig_T3 ≤ 32767) :
    |var2_fl adc_t bmec| ≤ 8388608 := by
  have a1 : |f32 (adc_t : ℚ)| ≤ 1048576 :=
    f32_abs_le _ _ 20 (by norm_num) (by
      have := abs_intCast_le adc_t 1048576 (by omega) (by omega)
      simpa using this)
  have a2 : |f64 (f32 (adc_t : ℚ) / 131072)| ≤ 8 :=
    f64_abs_le _ _ 3 (by norm_num) (by
      rw [abs_div, abs_of_pos (by norm_num : (0 : ℚ) < 131072)]
      linarith)
  have b1 : |f32 (bmec.dig_T1 : ℚ)| ≤ 65536 :=
    f32_abs_le _ _ 16 (by norm_num) (by
      have := abs_intCast_le bmec.dig_T1 65536 (by omega) (by omega)
      simpa using this)
  have b2 : |f64 (f32 (bmec.dig_T1 : ℚ) / 8192)| ≤ 8 :=
    f64_abs_le _ _ 3 (by norm_num) (by
      rw [abs_div, abs_of_pos (by norm_num : (0 : ℚ) < 8192)]
      linarith)
  have d : |f64 (f64 (f32 (adc_t : ℚ) / 131072) - f64 (f32 (bmec.dig_T1 : ℚ) / 8192))| ≤ 16 :=
    f64_abs_le _ _ 4 (by norm_num) (by
      have := abs_sub (f64 (f32 (adc_t : ℚ) / 131072)) (f64 (f32 (bmec.dig_T1 : ℚ) / 8192))
      linarith)
  have sq : |f64 (f64 (f64 (f32 (adc_t : ℚ) / 131072) - f64 (f32 (bmec.dig_T1 : ℚ) / 8192)) *
      f64 (f64 (f32 (adc_t : ℚ) / 131072) - f64 (f32 (bmec.dig_T1 : ℚ) / 8192)))| ≤ 256 :=
    f64_abs_le _ _ 8 (by norm_num) (by
      rw [abs_mul]
      calc _ ≤ (16 : ℚ) * 16 := mul_le_mul d d (abs_nonneg _) (by norm_num)
        _ = 256 := by norm_num)
  have c : |f32 (bmec.dig_T3 : ℚ)| ≤ 32768 :=
    f32_abs_le _ _ 15 (by norm_num) (by
      have := abs_intCast_le bmec.dig_T3 32768 (by omega) (by omega)
      simpa using this)
  have m : |f64 (f64 (f64 (f64 (f32 (adc_t : ℚ) / 131072) - f64 (f32 (bmec.dig_T1 : ℚ) / 8192)) *
      f64 (f64 (f32 (adc_t : ℚ) / 131072) - f64 (f32 (bmec.dig_T1 : ℚ) / 8192)))
      * f32 (bmec.dig_T3 : ℚ))| ≤ 8388608 :=
    f64_abs_le _ _ 23 (by norm_num) (by
      rw [abs_mul]
      calc _ ≤ (256 : ℚ) * 32768 := mul_le_mul sq c (abs_nonneg _) (by norm_num)
        _ = 8388608 := by norm_num)
  exact f32_abs_le _ _ 23 (by norm_num) m

theorem tsum_fl_abs_le (adc_t : Int) (bmec : bmecal)
    (ha : 0 ≤ adc_t ∧ adc_t < 2 ^ 20) (h1 : 0 ≤ bmec.dig_T1 ∧ bmec.dig_T1 ≤ 65535)
    (h2 : -32768 ≤ bmec.dig_T2 ∧ bmec.dig_T2 ≤ 32767)
    (h3 : -32768 ≤ bmec.dig_T3 ∧ bmec.dig_T3 ≤ 32767) :
    |tsum_fl adc_t bmec| ≤ 16777216 := by
  have v1 := var1_fl_abs_le adc_t bmec ha h1 h2
  have v2 := var2_fl_abs_le adc_t bmec ha h1 h3
  exact f32_abs_le _ _ 24 (by norm_num) (by
    have := abs_add (var1_fl adc_t bmec) (var2_fl adc_t bmec)
    linarith)

/-- An integer of magnitude at most 2^24 is a `float` value. -/
theorem f32_intCast (n : Int) (h : |n| ≤ 2 ^ 24) : f32 (n : ℚ) = n :=
  fl_of_isFloat 24 (by norm_num) _ ⟨n, 0, h, by simp⟩

theorem t_fine_fl_eq (adc_t : Int) (bmec : bmecal)
    (ha : 0 ≤ adc_t ∧ adc_t < 2 ^ 20) (h1 : 0 ≤ bmec.dig_T1 ∧ bmec.dig_T1 ≤ 65535)
    (h2 : -32768 ≤ bmec.dig_T2 ∧ bmec.dig_T2 ≤ 32767)
    (h3 : -32768 ≤ bmec.dig_T3 ∧ bmec.dig_T3 ≤ 32767) :
    t_fine_fl adc_t bmec = ((c_long (tsum_fl adc_t bmec) : Int) : ℚ) := by
  have hs := tsum_fl_abs_le adc_t bmec ha h1 h2 h3
  have hc := (abs_c_long_le (tsum_fl adc_t bmec)).trans hs
  have hi : |c_long (tsum_fl adc_t bmec)| ≤ 2 ^ 24 := by
    have : ((|c_long (tsum_fl adc_t bmec)| : Int) : ℚ) ≤ ((2 ^ 24 : Int) : ℚ) := by
      push_cast
      exact hc
    exact_mod_cast this
  exact f32_intCast _ hi

/-- The stages of `get_data` in `float` arithmetic: the pressure stage and
the humidity stage receive the `t_fine` of the temperature stage. -/
theorem get_data_fl_stages (bmec : bmecal) (bus : Bus) :
    (get_data_fl bmec bus).1.pres_p
      = pres_p_fl (get_data_adc bus).1.adc_p
          (t_fine_fl (get_data_adc bus).1.adc_t bmec) bmec ∧
    (get_data_fl bmec bus).1.humi_p
      = (if 100 < humidity_fl (get_data_adc bus).1.adc_h
                    (t_fine_fl (get_data_adc bus).1.adc_t bmec) bmec then 100
         else if humidity_fl (get_data_adc bus).1.adc_h
                    (t_fine_fl (get_data_adc bus).1.adc_t bmec) bmec < 0 then 0
         else humidity_fl (get_data_adc bus).1.adc_h
                    (t_fine_fl (get_data_adc bus).1.adc_t bmec) bmec) :=
  ⟨rfl, rfl⟩

/-- Whatever the bus does, the raw temperature reading that `get_data`
assembles has 20 bits. -/
theorem get_data_adc_t_range (bus : Bus) :
    0 ≤ (get_data_adc bus).1.adc_t ∧ (get_data_adc bus).1.adc_t < 2 ^ 20 := by
  have hb := i2c_read_buf_lt 8 (i2c_write [BME280_PRES_DATA_MSB_ADDR] bus).bus
  have h3 := hb 3
  have h4 := hb 4
  have h5 := hb 5
  have ha : (i2c_read (fun _ => 0) 8 (i2c_write [BME280_PRES_DATA_MSB_ADDR] bus).bus).buf 5
      &&& 0xF0 ≤ (i2c_read (fun _ => 0) 8 (i2c_write [BME280_PRES_DATA_MSB_ADDR] bus).bus).buf 5 :=
    Nat.and_le_left
  simp only [get_data_adc]
  constructor
  · exact Int.ofNat_nonneg _
  · have : ((i2c_read (fun _ => 0) 8 (i2c_write [BME280_PRES_DATA_MSB_ADDR] bus).bus).buf 3
        * 65536
        + ((i2c_read (fun _ => 0) 8 (i2c_write [BME280_PRES_DATA_MSB_ADDR] bus).bus).buf 4 * 256
        + ((i2c_read (fun _ => 0) 8 (i2c_write [BME280_PRES_DATA_MSB_ADDR] bus).bus).buf 5
            &&& 0xF0))) / 16 < 2 ^ 20 := by
      omega
    exact_mod_cast this

/-- C17, amended. Fine temperature in the `float` arithmetic of the source:
for every raw `adc_t` of 20 bits and coefficients `dig_T1` (`uint16_t`),
`dig_T2`, `dig_T3` (`int16_t`), the `float` sum `var1 + var2` that `get_data`
converts to `long` lies within 2^24 in magnitude, so the conversion and the
store into the `float` `t_fine` lose nothing, and the `t_fine` passed to the
pressure and humidity stages is that sum truncated toward zero: its floor
when the sum is not negative, its ceiling when it is negative.  So `t_fine`
is the floor of the sum exactly when the sum is not negative or is an
integer. -/
theorem t_fine_float_truncates (adc_t : Int) (bmec : bmecal)
    (ha : 0 ≤ adc_t ∧ adc_t < 2 ^ 20) (h1 : 0 ≤ bmec.dig_T1 ∧ bmec.dig_T1 ≤ 65535)
    (h2 : -32768 ≤ bmec.dig_T2 ∧ bmec.dig_T2 ≤ 32767)
    (h3 : -32768 ≤ bmec.dig_T3 ∧ bmec.dig_T3 ≤ 32767) :
    |tsum_fl adc_t bmec| ≤ 16777216 ∧
    t_fine_fl adc_t bmec
      = (((if 0 ≤ tsum_fl adc_t bmec then ⌊tsum_fl adc_t bmec⌋
           else ⌈tsum_fl adc_t bmec⌉) : Int) : ℚ) ∧
    (t_fine_fl adc_t bmec = ((⌊tsum_fl adc_t bmec⌋ : Int) : ℚ) ↔
      (0 ≤ tsum_fl adc_t bmec ∨ ((⌊tsum_fl adc_t bmec⌋ : Int) : ℚ) = tsum_fl adc_t bmec)) := by
  rw [t_fine_fl_eq adc_t bmec ha h1 h2 h3]
  refine ⟨tsum_fl_abs_le adc_t bmec ha h1 h2 h3, ?_, ?_⟩
  · rw [c_long_eq]
  · rw [Int.cast_inj]
    exact c_long_eq_floor_iff _

/-! ## The float model at concrete inputs -/

theorem rne_eq_of_abs_lt (q : ℚ) (n : Int) (h : |q - n| < 1 / 2) : rne q = n := by
  rw [abs_lt] at h
  by_cases hq : (n : ℚ) ≤ q
  · have hf : ⌊q⌋ = n := by
      rw [Int.floor_eq_iff]
      exact ⟨hq, by linarith⟩
    simp only [rne, hf]
    rw [if_pos (by linarith)]
  · have hq' : q < n := not_le.mp hq
    have hf : ⌊q⌋ = n - 1 := by
      rw [Int.floor_eq_iff]
      push_cast
      exact ⟨by linarith, by linarith⟩
    simp only [rne, hf]
    push_cast
    rw [if_neg (by linarith), if_pos (by linarith)]
    ring

theorem fl_eval (p : Nat) (x : ℚ) (e n : Int) (hx : x ≠ 0)
    (h1 : (2 : ℚ) ^ e ≤ |x|) (h2 : |x| < (2 : ℚ) ^ (e + 1))
    (hn : rne (x / 2 ^ (e - (p : Int) + 1)) = n) :
    fl p x = (n : ℚ) * 2 ^ (e - (p : Int) + 1) := by
  have hpos : (0 : ℚ) < |x| := abs_pos.mpr hx
  have hlog : Int.log 2 |x| = e := by
    apply le_antisymm
    · have := (Int.lt_zpow_iff_log_lt (R := ℚ) (b := 2) (by norm_num) hpos
        (x := e + 1)).mp (by simpa using h2)
      omega
    · exact (Int.zpow_le_iff_le_log (R := ℚ) (b := 2) (by norm_num) hpos (x := e)).mp
        (by simpa using h1)
  simp only [fl, if_neg hx, hlog, hn]

theorem f32_exact (y : ℚ) (m k : Int) (hm : |m| ≤ 2 ^ 24) (hy : y = (m : ℚ) * 2 ^ k) :
    f32 y = y := fl_of_isFloat 24 (by norm_num) y ⟨m, k, hm, hy⟩

theorem f64_exact (y : ℚ) (m k : Int) (hm : |m| ≤ 2 ^ 53) (hy : y = (m : ℚ) * 2 ^ k) :
    f64 y = y := fl_of_isFloat 53 (by norm_num) y ⟨m, k, hm, hy⟩

theorem f32_zero : f32 0 = 0 := fl_zero 24

theorem f64_zero : f64 0 = 0 := fl_zero 53

theorem f32_one : f32 1 = 1 := f32_exact 1 1 0 (by norm_num) (by norm_num)

theorem tsum_fl_small : tsum_fl 0 (calOf 1 1 0 0 0 0) = -(1 / 1024) := by
  have e1 : f64 (1 / 1024) = 1 / 1024 := f64_exact _ 1 (-10) (by norm_num) (by norm_num)
  have e2 : f64 (-(1 / 1024)) = -(1 / 1024) :=
    f64_exact _ (-1) (-10) (by norm_num) (by norm_num)
  have e3 : f32 (-(1 / 1024)) = -(1 / 1024) :=
    f32_exact _ (-1) (-10) (by norm_num) (by norm_num)
  simp only [tsum_fl, var1_fl, var2_fl, calOf, Int.cast_zero, Int.cast_one, f32_zero, f64_zero,
    f32_one, zero_div, zero_sub, mul_one, mul_zero, add_zero, e1, e2, e3]

theorem t_fine_fl_small : t_fine_fl 0 (calOf 1 1 0 0 0 0) = 0 := by
  have hc : c_long (-(1 / 1024) : ℚ) = 0 := by
    rw [c_long_eq, if_neg (by norm_num), Int.ceil_eq_iff]
    norm_num
  simp only [t_fine_fl, tsum_fl_small, hc, Int.cast_zero, f32_zero]

/-- C17 (the claim fails as stated). With the raw reading `adc_t = 0` of a
sensor holding 0 and `T1 = 1`, `T2 = 1`, `T3 = 0` every operation of the
temperature stage is exact: `var1 + var2` is -1/1024, in exact arithmetic and
as computed in `float`; its floor is -1, but `t_fine` is 0, in exact
arithmetic and as the `float` that `get_data` passes on. -/
theorem t_fine_not_floor :
    (get_data_adc (busOf 0)).1.adc_t = 0 ∧
    temp_var1 (get_data_adc (busOf 0)).1.adc_t (calOf 1 1 0 0 0 0)
      + temp_var2 (get_data_adc (busOf 0)).1.adc_t (calOf 1 1 0 0 0 0) = -1 / 1024 ∧
    t_fine (get_data_adc (busOf 0)).1.adc_t (calOf 1 1 0 0 0 0) = 0 ∧
    ⌊temp_var1 (get_data_adc (busOf 0)).1.adc_t (calOf 1 1 0 0 0 0)
      + temp_var2 (get_data_adc (busOf 0)).1.adc_t (calOf 1 1 0 0 0 0)⌋ = -1 ∧
    tsum_fl (get_data_adc (busOf 0)).1.adc_t (calOf 1 1 0 0 0 0) = -1 / 1024 ∧
    t_fine_fl (get_data_adc (busOf 0)).1.adc_t (calOf 1 1 0 0 0 0) = 0 ∧
    ⌊tsum_fl (get_data_adc (busOf 0)).1.adc_t (calOf 1 1 0 0 0 0)⌋ = -1 ∧
    t_fine_fl (get_data_adc (busOf 0)).1.adc_t (calOf 1 1 0 0 0 0)
      ≠ ((⌊tsum_fl (get_data_adc (busOf 0)).1.adc_t (calOf 1 1 0 0 0 0)⌋ : Int) : ℚ) := by
  have hv : temp_var1 0 (calOf 1 1 0 0 0 0) + temp_var2 0 (calOf 1 1 0 0 0 0)
      = -1 / 1024 := by
    simp only [temp_var1, temp_var2, calOf]
    norm_num
  have hs : tsum_fl 0 (calOf 1 1 0 0 0 0) = -1 / 1024 := by
    rw [tsum_fl_small]
    norm_num
  have hf : ⌊tsum_fl 0 (calOf 1 1 0 0 0 0)⌋ = -1 := by
    rw [hs, Int.floor_eq_iff]
    norm_num
  rw [get_data_adc_zero]
  refine ⟨rfl, hv, ?_, ?_, hs, t_fine_fl_small, hf, ?_⟩
  · simp only [t_fine]
    rw [hv, c_long_eq, if_neg (by norm_num), Int.ceil_eq_iff]
    norm_num
  · simp only []
    rw [hv, Int.floor_eq_iff]
    norm_num
  · simp only []
    rw [t_fine_fl_small, hf]
    norm_num

/-- Witness for C17, amended: the reading and coefficients of the data sheet
example. -/
theorem t_fine_float_truncates_witness :
    (0 ≤ (519888 : Int) ∧ (519888 : Int) < 2 ^ 20) ∧
    (0 ≤ (calOf 28485 26735 50 0 0 0).dig_T1 ∧ (calOf 28485 26735 50 0 0 0).dig_T1 ≤ 65535) ∧
    (-32768 ≤ (calOf 28485 26735 50 0 0 0).dig_T2 ∧
      (calOf 28485 26735 50 0 0 0).dig_T2 ≤ 32767) ∧
    (-32768 ≤ (calOf 28485 26735 50 0 0 0).dig_T3 ∧
      (calOf 28485 26735 50 0 0 0).dig_T3 ≤ 32767) ∧
    t_fine_fl 519888 (calOf 28485 26735 50 0 0 0)
      = (((if 0 ≤ tsum_fl 519888 (calOf 28485 26735 50 0 0 0)
           then ⌊tsum_fl 519888 (calOf 28485 26735 50 0 0 0)⌋
           else ⌈tsum_fl 519888 (calOf 28485 26735 50 0 0 0)⌉) : Int) : ℚ) ∧
    (t_fine_fl 519888 (calOf 28485 26735 50 0 0 0)
        = ((⌊tsum_fl 519888 (calOf 28485 26735 50 0 0 0)⌋ : Int) : ℚ) ↔
      (0 ≤ tsum_fl 519888 (calOf 28485 26735 50 0 0 0) ∨
        ((⌊tsum_fl 519888 (calOf 28485 26735 50 0 0 0)⌋ : Int) : ℚ)
          = tsum_fl 519888 (calOf 28485 26735 50 0 0 0))) :=
  ⟨by decide, by decide, by decide, by decide,
    (t_fine_float_truncates 519888 (calOf 28485 26735 50 0 0 0) (by decide) (by decide)
      (by decide) (by decide)).2⟩

theorem c_long_natCast (n : Nat) : c_long (n : ℚ) = n := by
  rw [c_long_eq, if_pos (by positivity)]
  exact Int.floor_natCast n

theorem tsum_fl_rounds : tsum_fl 16385 (calOf 0 16383 0 0 0 0) = 16384 := by
  have a1 : f32 16385 = 16385 := f32_exact _ 16385 0 (by norm_num) (by norm_num)
  have a2 : f32 16383 = 16383 := f32_exact _ 16383 0 (by norm_num) (by norm_num)
  have a3 : f64 (16385 / 16384) = 16385 / 16384 :=
    f64_exact _ 16385 (-14) (by norm_num) (by norm_num)
  have a4 : f64 (16385 / 16384 * 16383) = 268435455 / 16384 := by
    rw [f64_exact _ 268435455 (-14) (by norm_num) (by norm_num)]
    norm_num
  have a5 : f32 (268435455 / 16384) = 16384 := by
    have h := fl_eval 24 (268435455 / 16384) 13 16777216 (by norm_num)
      (by rw [abs_of_pos (by norm_num)]; norm_num)
      (by rw [abs_of_pos (by norm_num)]; norm_num)
      (rne_eq_of_abs_lt _ _ (by norm_num [abs_lt]))
    unfold f32
    rw [h]
    norm_num
  have a6 : f32 16384 = 16384 := f32_exact _ 1 14 (by norm_num) (by norm_num)
  simp only [tsum_fl, var1_fl, var2_fl, calOf, Int.cast_zero, Int.cast_ofNat, f32_zero,
    f64_zero, zero_div, sub_zero, mul_zero, add_zero, a1, a2, a3, a4, a5, a6]

/-- The exact-arithmetic model and the arithmetic of the machine part ways:
with `adc_t = 16385` and `dig_T2 = 16383` the product 16383.99993896484375
is rounded to 16384 when it is stored in the `float` `var1`, so the `t_fine`
of `get_data` is 16384 where exact arithmetic gives 16383. -/
theorem t_fine_fl_rounds :
    t_fine_fl 16385 (calOf 0 16383 0 0 0 0) = 16384 ∧
    t_fine 16385 (calOf 0 16383 0 0 0 0) = 16383 := by
  constructor
  · have hc : c_long (16384 : ℚ) = 16384 := c_long_natCast 16384
    have a6 : f32 16384 = 16384 := f32_exact _ 1 14 (by norm_num) (by norm_num)
    simp only [t_fine_fl, tsum_fl_rounds, hc, Int.cast_ofNat, a6]
  · simp only [t_fine, temp_var1, temp_var2, calOf]
    rw [c_long_eq, if_pos (by norm_num), Int.floor_eq_iff]
    norm_num

theorem t_fine_fl_hazard : t_fine_fl 679936 hazardCal = 1176608 := by
  have b1 : f32 679936 = 679936 := f32_exact _ 679936 0 (by norm_num) (by norm_num)
  have b2 : f64 (679936 / 16384) = 679936 / 16384 :=
    f64_exact _ 83 (-1) (by norm_num) (by norm_num)
  have b3 : f32 28352 = 28352 := f32_exact _ 28352 0 (by norm_num) (by norm_num)
  have b4 : f64 (679936 / 16384 * 28352) = 1176608 := by
    rw [f64_exact _ 1176608 0 (by norm_num) (by norm_num)]
    norm_num
  have b5 : f32 1176608 = 1176608 := f32_exact _ 1176608 0 (by norm_num) (by norm_num)
  have hc : c_long (1176608 : ℚ) = 1176608 := c_long_natCast 1176608
  simp only [t_fine_fl, tsum_fl, var1_fl, var2_fl, hazardCal, Int.cast_zero, Int.cast_ofNat,
    f32_zero, f64_zero, zero_div, sub_zero, mul_zero, add_zero, b1, b2, b3, b4, b5, hc]

theorem press_var1_fl_hazard : press_var1_fl 1176608 = 524304 := by
  have b6 : f64 (1176608 / 2) = 588304 := by
    rw [f64_exact _ 588304 0 (by norm_num) (by norm_num)]
    norm_num
  have b7 : f64 (588304 - 64000) = 524304 := by
    rw [f64_exact _ 524304 0 (by norm_num) (by norm_num)]
    norm_num
  have b8 : f32 524304 = 524304 := f32_exact _ 524304 0 (by norm_num) (by norm_num)
  simp only [press_var1_fl, b6, b7, b8]

theorem press_x_fl_hazard : press_x_fl 1176608 hazardCal = -32768 := by
  have b9 : f32 (-32767) = -32767 := f32_exact _ (-32767) 0 (by norm_num) (by norm_num)
  have b10 : f32 (-32767 * 524304) = -17179869184 := by
    have h := fl_eval 24 (-32767 * 524304) 33 (-16777216) (by norm_num)
      (by rw [abs_of_neg (by norm_num)]; norm_num)
      (by rw [abs_of_neg (by norm_num)]; norm_num)
      (rne_eq_of_abs_lt _ _ (by norm_num [abs_lt]))
    unfold f32
    rw [h]
    norm_num
  have b11 : f64 (-17179869184) = -17179869184 :=
    f64_exact _ (-1) 34 (by norm_num) (by norm_num)
  have b12 : f64 (-17179869184 / 524288) = -32768 := by
    rw [f64_exact _ (-1) 15 (by norm_num) (by norm_num)]
    norm_num
  have b13 : f32 (-32768) = -32768 := f32_exact _ (-1) 15 (by norm_num) (by norm_num)
  simp only [press_x_fl, press_var1_fl_hazard, hazardCal, Int.cast_zero, Int.cast_neg,
    Int.cast_ofNat, f32_zero, f64_zero, zero_mul, zero_div, zero_add, b9, b10, b11, b12, b13]

/-- Rounding alone can bring the divisor of the pressure stage to zero: with
`adc_t = 679936`, `dig_T2 = 28352`, `dig_P1 = 1`, `dig_P2 = -32767` the
`float` product `dig_P2 * var1` is rounded from -17179869168 to -2^34, the
term `x` becomes -32768 and the divisor 0, so `p` is no finite number, while
in exact arithmetic the divisor is not zero. -/
theorem press_divisor_fl_hazard :
    hazardCal.dig_P1 = 1 ∧
    press_x_fl (t_fine_fl 679936 hazardCal) hazardCal = -32768 ∧
    press_divisor_fl (t_fine_fl 679936 hazardCal) hazardCal = 0 ∧
    (∀ adc_p, press_p_fl adc_p (t_fine_fl 679936 hazardCal) hazardCal = none) ∧
    press_divisor (t_fine 679936 hazardCal) hazardCal ≠ 0 := by
  have hx := press_x_fl_hazard
  have hd : press_divisor_fl 1176608 hazardCal = 0 :=
    (press_divisor_fl_zero_iff _ _).mpr (Or.inr hx)
  rw [t_fine_fl_hazard]
  refine ⟨rfl, hx, hd, fun adc_p => (press_p_fl_none_iff adc_p _ _).mpr hd, ?_⟩
  have ht : t_fine 679936 hazardCal = 1176608 := by
    simp only [t_fine, temp_var1, temp_var2, hazardCal]
    rw [c_long_eq, if_pos (by norm_num), Int.floor_eq_iff]
    norm_num
  rw [ht]
  simp only [press_divisor, hazardCal]
  norm_num

end BME280
